import Mathlib

/-!
Verification development for the fathom binary data-description language
front end.  Two components of the repository are embedded shallowly:

* the type-theoretic core (`src/semantics/mod.rs`): values, normalization,
  the subtype relation `is_subtype`, and literal checking;
* the surface elaborator of the `ddl` crate
  (`crates/ddl/src/surface/elaborate.rs`): item, field and term
  elaboration with its diagnostic stream.

The syntax crate of the repository (the `Term`/`Value`/`Neutral` data
types and their alpha-equality `term_eq`) is not part of the sources
handled here, so those data types are modelled from the design document:
binders are represented with de Bruijn indices in bound positions (the
design document explicitly allows a pure de Bruijn re-implementation),
which makes alpha-equivalence plain structural equality.  Float payloads
are carried as integers (the exact bit-level float semantics is out of
scope); equality on them is structural.
-/

namespace Fathom

/-- `syntax::core::Literal`, modelled from the design document: a tagged
variant over booleans, arbitrary-precision integers, 32-bit floats,
64-bit floats, characters and strings.  Float payloads are modelled as
integers. -/
inductive Literal where
  | bool : Bool → Literal
  | int : Int → Literal
  | f32 : Int → Literal
  | f64 : Int → Literal
  | char : Char → Literal
  | str : String → Literal
deriving DecidableEq, Repr

/-- `moniker::Var`: a variable is either free (identified by a globally
unique number) or a de Bruijn-indexed bound placeholder. -/
inductive Var where
  | free : Nat → Var
  | bound : Nat → Var
deriving DecidableEq, Repr

/-- `syntax::core::Pattern`, modelled from the design document: a literal
pattern or a binder pattern (introducing one variable). -/
inductive Pattern where
  | literal : Literal → Pattern
  | binder : Pattern
deriving DecidableEq, Repr

/-- `syntax::core::Value` together with the `Neutral` and `Head` layers,
modelled from the design document.  The constructors prefixed with `n`
are the neutral layer: `nvar`, `nglobal` and `next` are the three heads
(`Head::Var`, `Head::Global`, `Head::Extern`), while `nif`, `nproj` and
`ncase` are the eliminators stacked on a stuck head (`Neutral::If`,
`Neutral::Proj`, `Neutral::Case`).  `Value.neutral n spine` is
`Value::Neutral(n, spine)`: a neutral together with its application
spine.  Binder bodies (`pi`, `lam`, `recordType`, `record`, `ncase`
clause bodies) refer to the bound variable with de Bruijn index `0`. -/
inductive Value where
  | universe (level : Nat) : Value
  | pi (ann : Value) (body : Value) : Value
  | lam (ann : Value) (body : Value) : Value
  | recordType (label : String) (ann : Value) (rest : Value) : Value
  | recordTypeEmpty : Value
  | record (label : String) (value : Value) (rest : Value) : Value
  | recordEmpty : Value
  | intType (lo : Option Value) (hi : Option Value) : Value
  | literal (lit : Literal) : Value
  | array (elems : List Value) : Value
  | neutral (neu : Value) (spine : List Value) : Value
  | nvar (v : Var) : Value
  | nglobal (name : String) : Value
  | next (name : String) (ty : Value) : Value
  | nif (cond : Value) (ifTrue : Value) (ifFalse : Value) : Value
  | nproj (neu : Value) (label : String) : Value
  | ncase (neu : Value) (clauses : List (Pattern × Value)) : Value

/-- `Value::global`: a global name as a stuck neutral with empty spine. -/
def Value.global (name : String) : Value :=
  .neutral (.nglobal name) []

/-- `moniker`'s `term_eq` (alpha-equality) on values.  With de Bruijn
indices in bound positions alpha-equality is structural equality, so
this is a structurally recursive equality test. -/
def term_eq : Value → Value → Bool
  | .universe l1, .universe l2 => l1 == l2
  | .pi a1 b1, .pi a2 b2 => term_eq a1 a2 && term_eq b1 b2
  | .lam a1 b1, .lam a2 b2 => term_eq a1 a2 && term_eq b1 b2
  | .recordType l1 a1 r1, .recordType l2 a2 r2 =>
    l1 == l2 && term_eq a1 a2 && term_eq r1 r2
  | .recordTypeEmpty, .recordTypeEmpty => true
  | .record l1 v1 r1, .record l2 v2 r2 =>
    l1 == l2 && term_eq v1 v2 && term_eq r1 r2
  | .recordEmpty, .recordEmpty => true
  | .intType lo1 hi1, .intType lo2 hi2 => optEq lo1 lo2 && optEq hi1 hi2
  | .literal l1, .literal l2 => l1 == l2
  | .array xs, .array ys => listEq xs ys
  | .neutral n1 s1, .neutral n2 s2 => term_eq n1 n2 && listEq s1 s2
  | .nvar v1, .nvar v2 => v1 == v2
  | .nglobal n1, .nglobal n2 => n1 == n2
  | .next n1 t1, .next n2 t2 => n1 == n2 && term_eq t1 t2
  | .nif c1 t1 f1, .nif c2 t2 f2 =>
    term_eq c1 c2 && term_eq t1 t2 && term_eq f1 f2
  | .nproj n1 l1, .nproj n2 l2 => term_eq n1 n2 && l1 == l2
  | .ncase n1 c1, .ncase n2 c2 => term_eq n1 n2 && clausesEq c1 c2
  | _, _ => false
where
  optEq : Option Value → Option Value → Bool
    | none, none => true
    | some v1, some v2 => term_eq v1 v2
    | _, _ => false
  listEq : List Value → List Value → Bool
    | [], [] => true
    | x :: xs, y :: ys => term_eq x y && listEq xs ys
    | _, _ => false
  clausesEq : List (Pattern × Value) → List (Pattern × Value) → Bool
    | [], [] => true
    | (p1, v1) :: xs, (p2, v2) :: ys =>
      p1 == p2 && term_eq v1 v2 && clausesEq xs ys
    | _, _ => false

/-- `syntax::core::Term`, modelled from the design document, with exactly
the constructors that the exhaustive match in `normalize` handles.
Binder bodies use de Bruijn index `0` for the bound variable. -/
inductive Term where
  | ann (expr : Term) (ty : Term) : Term
  | universe (level : Nat) : Term
  | intType (lo : Option Term) (hi : Option Term) : Term
  | literal (lit : Literal) : Term
  | var (v : Var) : Term
  | ext (name : String) (ty : Term) : Term
  | global (name : String) : Term
  | pi (ann : Term) (body : Term) : Term
  | lam (ann : Term) (body : Term) : Term
  | app (head : Term) (arg : Term) : Term
  | ifte (cond : Term) (ifTrue : Term) (ifFalse : Term) : Term
  | recordType (label : String) (ann : Term) (rest : Term) : Term
  | recordTypeEmpty : Term
  | record (label : String) (value : Term) (rest : Term) : Term
  | recordEmpty : Term
  | proj (expr : Term) (label : String) : Term
  | case (head : Term) (clauses : List (Pattern × Term)) : Term
  | array (elems : List Term) : Term

/-- `semantics::prim::PrimFn`, modelled from the design document: an
arity together with an interpretation over a fully-normalized argument
spine. -/
structure PrimFn where
  arity : Nat
  interpretation : List Value → Except Unit Value

/-- `semantics::TcEnv`: the type-checking environment.  The four
persistent maps are modelled as lookup functions; free variables are
identified by their unique number. -/
structure TcEnv where
  primitives : String → Option PrimFn
  globals : String → Option (Option Value × Value)
  claims : Nat → Option Value
  definitions : Nat → Option Term

/-- The local `int_ty` helper of `TcEnv::default` and `is_subtype`:
an interval type with optional integer-literal bounds. -/
def int_ty (lo hi : Option Int) : Value :=
  .intType (lo.map fun x => .literal (.int x)) (hi.map fun x => .literal (.int x))

/-- The `nat_ty` value of `TcEnv::default`: `IntType(Some 0, None)`. -/
def nat_ty : Value := .intType (some (.literal (.int 0))) none

/-- The globals map of `TcEnv::default`. -/
def default_globals : String → Option (Option Value × Value)
  | "Bool" => some (none, .universe 0)
  | "true" => some (some (.literal (.bool true)), Value.global "Bool")
  | "false" => some (some (.literal (.bool false)), Value.global "Bool")
  | "String" => some (none, .universe 0)
  | "Char" => some (none, .universe 0)
  | "U8" => some (some (int_ty (some 0) (some 255)), .universe 0)
  | "U16" => some (some (int_ty (some 0) (some 65535)), .universe 0)
  | "U32" => some (some (int_ty (some 0) (some 4294967295)), .universe 0)
  | "U64" => some (some (int_ty (some 0) (some 18446744073709551615)), .universe 0)
  | "S8" => some (some (int_ty (some (-128)) (some 127)), .universe 0)
  | "S16" => some (some (int_ty (some (-32768)) (some 32767)), .universe 0)
  | "S32" => some (some (int_ty (some (-2147483648)) (some 2147483647)), .universe 0)
  | "S64" =>
    some (some (int_ty (some (-9223372036854775808)) (some 9223372036854775807)),
      .universe 0)
  | "F32" => some (none, .universe 0)
  | "F64" => some (none, .universe 0)
  | "Array" => some (none, .pi nat_ty (.pi (.universe 0) (.universe 0)))
  | "U16Le" => some (none, .universe 0)
  | "U32Le" => some (none, .universe 0)
  | "U64Le" => some (none, .universe 0)
  | "S16Le" => some (none, .universe 0)
  | "S32Le" => some (none, .universe 0)
  | "S64Le" => some (none, .universe 0)
  | "F32Le" => some (none, .universe 0)
  | "F64Le" => some (none, .universe 0)
  | "U16Be" => some (none, .universe 0)
  | "U32Be" => some (none, .universe 0)
  | "U64Be" => some (none, .universe 0)
  | "S16Be" => some (none, .universe 0)
  | "S32Be" => some (none, .universe 0)
  | "S64Be" => some (none, .universe 0)
  | "F32Be" => some (none, .universe 0)
  | "F64Be" => some (none, .universe 0)
  | _ => none

/-- `TcEnv::default`.  The contents of `PrimEnv::default` live in
`semantics/prim.rs`, which is not among the sources handled here;
the primitive map is therefore left empty and theorems that involve
primitives quantify over the primitive map instead. -/
def default_tc_env : TcEnv where
  primitives := fun _ => none
  globals := default_globals
  claims := fun _ => none
  definitions := fun _ => none

/-- The `is_name` helper of `is_subtype`: `ty` is the given global name
applied to an empty spine. -/
def is_name (ty : Value) (name : String) : Bool :=
  match ty with
  | .neutral (.nglobal n) spine => name == n && spine.isEmpty
  | _ => false

/-- The integer payload of a `Value::Literal(Literal::Int(..))`, used to
phrase the two-integer-literals tests inside `is_subtype`. -/
def as_int_literal : Value → Option Int
  | .literal (.int n) => some n
  | _ => none

/-- The `in_min_bound` computation of `is_subtype`: the lower bound
`min1` is at least `min2`, where `None` is negative infinity, two
integer literals compare numerically, and anything else falls back to
alpha-equality. -/
def in_min_bound : Option Value → Option Value → Bool
  | none, none => true
  | some _, none => true
  | none, some _ => false
  | some min1, some min2 =>
    match as_int_literal min1, as_int_literal min2 with
    | some n1, some n2 => decide (n1 ≥ n2)
    | _, _ => term_eq min1 min2

/-- The `in_max_bound` computation of `is_subtype`: the upper bound
`max1` is at most `max2`, where `None` is positive infinity, two
integer literals compare numerically, and anything else falls back to
alpha-equality. -/
def in_max_bound : Option Value → Option Value → Bool
  | none, none => true
  | some _, none => true
  | none, some _ => false
  | some max1, some max2 =>
    match as_int_literal max1, as_int_literal max2 with
    | some n1, some n2 => decide (n1 ≤ n2)
    | _, _ => term_eq max1 max2

/-- The recursive calls `is_subtype(&int_ty(lo, hi), ty2)` made by the
sized-integer arms of `is_subtype`.  Since `int_ty` always builds an
interval type, such a call immediately resolves to either the interval
rule (when `ty2` is an interval type) or the alpha-equality fallback;
this helper is that one recursion step, unfolded. -/
def is_subtype_int_ty (lo hi : Int) (ty2 : Value) : Bool :=
  match ty2 with
  | .intType lo2 hi2 =>
    in_min_bound (some (.literal (.int lo))) lo2 &&
      in_max_bound (some (.literal (.int hi))) hi2
  | t2 => term_eq (int_ty (some lo) (some hi)) t2

/-- `semantics::is_subtype`: check that `ty1` is a subtype of `ty2`. -/
def is_subtype (ty1 ty2 : Value) : Bool :=
  match ty1, ty2 with
  | .intType lo1 hi1, .intType lo2 hi2 =>
    in_min_bound lo1 lo2 && in_max_bound hi1 hi2
  | t1, t2 =>
    if is_name t1 "U16Le" then is_subtype_int_ty 0 65535 t2
    else if is_name t1 "U32Le" then is_subtype_int_ty 0 4294967295 t2
    else if is_name t1 "U64Le" then is_subtype_int_ty 0 18446744073709551615 t2
    else if is_name t1 "S16Le" then is_subtype_int_ty (-32768) 32767 t2
    else if is_name t1 "S32Le" then is_subtype_int_ty (-2147483648) 2147483647 t2
    else if is_name t1 "S64Le" then
      is_subtype_int_ty (-9223372036854775808) 9223372036854775807 t2
    else if is_name t1 "F32Le" && is_name t2 "F32" then true
    else if is_name t1 "F64Le" && is_name t2 "F64" then true
    else if is_name t1 "U16Be" then is_subtype_int_ty 0 65535 t2
    else if is_name t1 "U32Be" then is_subtype_int_ty 0 4294967295 t2
    else if is_name t1 "U64Be" then is_subtype_int_ty 0 18446744073709551615 t2
    else if is_name t1 "S16Be" then is_subtype_int_ty (-32768) 32767 t2
    else if is_name t1 "S32Be" then is_subtype_int_ty (-2147483648) 2147483647 t2
    else if is_name t1 "S64Be" then
      is_subtype_int_ty (-9223372036854775808) 9223372036854775807 t2
    else if is_name t1 "F32Be" && is_name t2 "F32" then true
    else if is_name t1 "F64Be" && is_name t2 "F64" then true
    else term_eq t1 t2

namespace raw

/-- `syntax::raw::Literal` (the parser's literal tokens), modelled from
the design document; spans are dropped and float payloads are carried as
integers. -/
inductive Literal where
  | string : String → Literal
  | char : Char → Literal
  | int : Int → Literal
  | float : Int → Literal
deriving DecidableEq, Repr

end raw

/-- `semantics::TypeError`, restricted to the constructors reachable
from the embedded functions (`errors.rs` is not among the sources
handled here); spans and resugared payloads are dropped. -/
inductive TypeError where
  | literalMismatch (found : raw.Literal) (expected : Value)
  | ambiguousFloatLiteral

/-- `Value::global_app`, modelled from its uses: the global head and the
application spine of a stuck global application, if the value is one. -/
def Value.global_app : Value → Option (String × List Value)
  | .neutral (.nglobal name) spine => some (name, spine)
  | _ => none

/-- `semantics::infer_literal`: synthesize the type of a literal.
An integer literal synthesizes the singleton interval type; float
literals are ambiguous. -/
def infer_literal : raw.Literal → Except TypeError (Literal × Value)
  | .string v => .ok (.str v, Value.global "String")
  | .char v => .ok (.char v, Value.global "Char")
  | .int v =>
    .ok (.int v, .intType (some (.literal (.int v))) (some (.literal (.int v))))
  | .float _ => .error .ambiguousFloatLiteral

/-- The tail of `semantics::check_literal`, reached when no special
global arm applies: infer the literal's type and require it to be a
subtype of the expected type. -/
def check_literal_fallback (raw_literal : raw.Literal) (expected_ty : Value) :
    Except TypeError Literal :=
  match infer_literal raw_literal with
  | .ok (literal, inferred_ty) =>
    if is_subtype inferred_ty expected_ty then .ok literal
    else .error (.literalMismatch raw_literal expected_ty)
  | .error e => .error e

/-- `semantics::check_literal`: check a literal against an expected type.
The conversions `to_f32`/`to_f64` on integer payloads are modelled as
the identity on the integer payload (bit-level float semantics is out of
scope and unreachable from the theorems below). -/
def check_literal (raw_literal : raw.Literal) (expected_ty : Value) :
    Except TypeError Literal :=
  match expected_ty.global_app with
  | some (name, spine) =>
    if spine.isEmpty then
      match raw_literal, name with
      | .string v, "String" => .ok (.str v)
      | .char v, "Char" => .ok (.char v)
      | .int v, "F32" => .ok (.f32 v)
      | .int v, "F64" => .ok (.f64 v)
      | .float v, "F32" => .ok (.f32 v)
      | .float v, "F64" => .ok (.f64 v)
      | rl, _ => check_literal_fallback rl expected_ty
    else check_literal_fallback raw_literal expected_ty
  | none => check_literal_fallback raw_literal expected_ty

/-- The normal form of the global `name` under `TcEnv::default`, exactly
as the `Term::Global` case of `normalize` computes it: the global's
recorded value if it has one, and a stuck neutral otherwise. -/
def global_type_value (name : String) : Value :=
  match default_tc_env.globals name with
  | some (some v, _) => v
  | _ => Value.global name

/-- Checking the integer literal `n` against the named built-in type,
as the elaborator does when an annotation names that global: the
annotation normalizes to `global_type_value name` and the literal is
checked against it with `check_literal`. -/
def check_int_literal (n : Int) (name : String) : Except TypeError Literal :=
  check_literal (.int n) (global_type_value name)

/-- The specification's reading of the lower-bound side of interval
subtyping, written from its words: `lo2 ≤ lo1` where an absent bound is
negative infinity, two integer literals compare numerically, and any
other pair of present bounds must be alpha-equal. -/
def spec_lower_ok (lo1 lo2 : Option Value) : Prop :=
  match lo1, lo2 with
  | _, none => True
  | none, some _ => False
  | some v1, some v2 =>
    match as_int_literal v1, as_int_literal v2 with
    | some n1, some n2 => n2 ≤ n1
    | _, _ => v1 = v2

/-- The specification's reading of the upper-bound side of interval
subtyping, written from its words: `hi1 ≤ hi2` where an absent bound is
positive infinity, two integer literals compare numerically, and any
other pair of present bounds must be alpha-equal. -/
def spec_upper_ok (hi1 hi2 : Option Value) : Prop :=
  match hi1, hi2 with
  | _, none => True
  | none, some _ => False
  | some v1, some v2 =>
    match as_int_literal v1, as_int_literal v2 with
    | some n1, some n2 => n1 ≤ n2
    | _, _ => v1 = v2

/-- The number of variables a pattern introduces: a binder pattern
introduces one, a literal pattern none. -/
def Pattern.binds : Pattern → Nat
  | .literal _ => 0
  | .binder => 1

mutual

/-- Modelled from the spec: the de Bruijn shift on core terms, adding one
to every bound index at or above the cutoff `c`.  This is the shift half
of the pure-de-Bruijn-with-explicit-shifts binding representation that
the design document licenses for re-implementations. -/
def liftTerm (c : Nat) : Term → Term
  | .ann e t => .ann (liftTerm c e) (liftTerm c t)
  | .universe l => .universe l
  | .intType lo hi => .intType (liftTermOpt c lo) (liftTermOpt c hi)
  | .literal lit => .literal lit
  | .var (.free x) => .var (.free x)
  | .var (.bound k) => .var (.bound (if k < c then k else k + 1))
  | .ext name ty => .ext name (liftTerm c ty)
  | .global name => .global name
  | .pi a b => .pi (liftTerm c a) (liftTerm (c + 1) b)
  | .lam a b => .lam (liftTerm c a) (liftTerm (c + 1) b)
  | .app h a => .app (liftTerm c h) (liftTerm c a)
  | .ifte x t f => .ifte (liftTerm c x) (liftTerm c t) (liftTerm c f)
  | .recordType l a r => .recordType l (liftTerm c a) (liftTerm (c + 1) r)
  | .recordTypeEmpty => .recordTypeEmpty
  | .record l v r => .record l (liftTerm c v) (liftTerm (c + 1) r)
  | .recordEmpty => .recordEmpty
  | .proj e l => .proj (liftTerm c e) l
  | .case h cs => .case (liftTerm c h) (liftTermClauses c cs)
  | .array es => .array (liftTermList c es)
termination_by t => sizeOf t

/-- The shift on an optional interval bound. -/
def liftTermOpt (c : Nat) : Option Term → Option Term
  | none => none
  | some x => some (liftTerm c x)
termination_by o => sizeOf o

/-- The shift on a clause list; each body lives under its pattern's
binders. -/
def liftTermClauses (c : Nat) : List (Pattern × Term) → List (Pattern × Term)
  | [] => []
  | (p, b) :: rest => (p, liftTerm (c + p.binds) b) :: liftTermClauses c rest
termination_by cs => sizeOf cs

/-- The shift on a term list. -/
def liftTermList (c : Nat) : List Term → List Term
  | [] => []
  | t :: ts => liftTerm c t :: liftTermList c ts
termination_by ts => sizeOf ts

end

mutual

/-- Modelled from the spec: capture-avoiding instantiation of the bound
index `k` of a core term with the term `sub` — the de Bruijn counterpart
of moniker's unbind-then-substitute at a binder.  Index `k` becomes
`sub`, larger indices are decremented because the binder is consumed,
and `sub` is shifted when the traversal passes under a binder. -/
def instTerm (k : Nat) (sub : Term) : Term → Term
  | .ann e t => .ann (instTerm k sub e) (instTerm k sub t)
  | .universe l => .universe l
  | .intType lo hi => .intType (instTermOpt k sub lo) (instTermOpt k sub hi)
  | .literal lit => .literal lit
  | .var (.free x) => .var (.free x)
  | .var (.bound i) =>
    if i = k then sub
    else if k < i then .var (.bound (i - 1))
    else .var (.bound i)
  | .ext name ty => .ext name (instTerm k sub ty)
  | .global name => .global name
  | .pi a b => .pi (instTerm k sub a) (instTerm (k + 1) (liftTerm 0 sub) b)
  | .lam a b => .lam (instTerm k sub a) (instTerm (k + 1) (liftTerm 0 sub) b)
  | .app h a => .app (instTerm k sub h) (instTerm k sub a)
  | .ifte x t f => .ifte (instTerm k sub x) (instTerm k sub t) (instTerm k sub f)
  | .recordType l a r =>
    .recordType l (instTerm k sub a) (instTerm (k + 1) (liftTerm 0 sub) r)
  | .recordTypeEmpty => .recordTypeEmpty
  | .record l v r =>
    .record l (instTerm k sub v) (instTerm (k + 1) (liftTerm 0 sub) r)
  | .recordEmpty => .recordEmpty
  | .proj e l => .proj (instTerm k sub e) l
  | .case h cs => .case (instTerm k sub h) (instTermClauses k sub cs)
  | .array es => .array (instTermList k sub es)
termination_by t => sizeOf t

/-- Instantiation of an optional interval bound. -/
def instTermOpt (k : Nat) (sub : Term) : Option Term → Option Term
  | none => none
  | some x => some (instTerm k sub x)
termination_by o => sizeOf o

/-- Instantiation of a clause list; a binder pattern's body lives one
binder deeper. -/
def instTermClauses (k : Nat) (sub : Term) :
    List (Pattern × Term) → List (Pattern × Term)
  | [] => []
  | (Pattern.binder, b) :: rest =>
    (Pattern.binder, instTerm (k + 1) (liftTerm 0 sub) b) ::
      instTermClauses k sub rest
  | (Pattern.literal lit, b) :: rest =>
    (Pattern.literal lit, instTerm k sub b) :: instTermClauses k sub rest
termination_by cs => sizeOf cs

/-- Instantiation of a term list. -/
def instTermList (k : Nat) (sub : Term) : List Term → List Term
  | [] => []
  | t :: ts => instTerm k sub t :: instTermList k sub ts
termination_by ts => sizeOf ts

end

mutual

/-- Modelled from the spec: the de Bruijn shift on values, adding one to
every stuck bound index at or above the cutoff `c`. -/
def liftValue (c : Nat) : Value → Value
  | .universe l => .universe l
  | .pi a b => .pi (liftValue c a) (liftValue (c + 1) b)
  | .lam a b => .lam (liftValue c a) (liftValue (c + 1) b)
  | .recordType l a r => .recordType l (liftValue c a) (liftValue (c + 1) r)
  | .recordTypeEmpty => .recordTypeEmpty
  | .record l v r => .record l (liftValue c v) (liftValue (c + 1) r)
  | .recordEmpty => .recordEmpty
  | .intType lo hi => .intType (liftValueOpt c lo) (liftValueOpt c hi)
  | .literal lit => .literal lit
  | .array xs => .array (liftValueList c xs)
  | .neutral n s => .neutral (liftValue c n) (liftValueList c s)
  | .nvar (.free x) => .nvar (.free x)
  | .nvar (.bound k) => .nvar (.bound (if k < c then k else k + 1))
  | .nglobal n => .nglobal n
  | .next n t => .next n (liftValue c t)
  | .nif x t f => .nif (liftValue c x) (liftValue c t) (liftValue c f)
  | .nproj n l => .nproj (liftValue c n) l
  | .ncase n cs => .ncase (liftValue c n) (liftValueClauses c cs)
termination_by v => sizeOf v

/-- The value shift on an optional interval bound. -/
def liftValueOpt (c : Nat) : Option Value → Option Value
  | none => none
  | some x => some (liftValue c x)
termination_by o => sizeOf o

/-- The value shift on a clause list. -/
def liftValueClauses (c : Nat) :
    List (Pattern × Value) → List (Pattern × Value)
  | [] => []
  | (p, b) :: rest => (p, liftValue (c + p.binds) b) :: liftValueClauses c rest
termination_by cs => sizeOf cs

/-- The value shift on a value list. -/
def liftValueList (c : Nat) : List Value → List Value
  | [] => []
  | v :: vs => liftValue c v :: liftValueList c vs
termination_by vs => sizeOf vs

end

mutual

/-- Modelled from the spec: instantiation of the stuck bound index `k`
with the value `sub` inside a value.  A stuck variable carrying index
`k` is replaced by `sub` itself — in particular a neutral application
whose head is the substituted variable becomes `sub` grafted into head
position with the spine left in place, with no re-reduction.  This is
the structural substitution that the design document's record-projection
rule ("after substituting earlier field values for their dependencies")
performs on record values. -/
def instValue (k : Nat) (sub : Value) : Value → Value
  | .universe l => .universe l
  | .pi a b => .pi (instValue k sub a) (instValue (k + 1) (liftValue 0 sub) b)
  | .lam a b => .lam (instValue k sub a) (instValue (k + 1) (liftValue 0 sub) b)
  | .recordType l a r =>
    .recordType l (instValue k sub a) (instValue (k + 1) (liftValue 0 sub) r)
  | .recordTypeEmpty => .recordTypeEmpty
  | .record l v r =>
    .record l (instValue k sub v) (instValue (k + 1) (liftValue 0 sub) r)
  | .recordEmpty => .recordEmpty
  | .intType lo hi => .intType (instValueOpt k sub lo) (instValueOpt k sub hi)
  | .literal lit => .literal lit
  | .array xs => .array (instValueList k sub xs)
  | .neutral n s => .neutral (instValue k sub n) (instValueList k sub s)
  | .nvar (.free x) => .nvar (.free x)
  | .nvar (.bound i) =>
    if i = k then sub
    else if k < i then .nvar (.bound (i - 1))
    else .nvar (.bound i)
  | .nglobal n => .nglobal n
  | .next n t => .next n (instValue k sub t)
  | .nif x t f =>
    .nif (instValue k sub x) (instValue k sub t) (instValue k sub f)
  | .nproj n l => .nproj (instValue k sub n) l
  | .ncase n cs => .ncase (instValue k sub n) (instValueClauses k sub cs)
termination_by v => sizeOf v

/-- Value instantiation on an optional interval bound. -/
def instValueOpt (k : Nat) (sub : Value) : Option Value → Option Value
  | none => none
  | some x => some (instValue k sub x)
termination_by o => sizeOf o

/-- Value instantiation on a clause list; a binder pattern's body lives
one binder deeper. -/
def instValueClauses (k : Nat) (sub : Value) :
    List (Pattern × Value) → List (Pattern × Value)
  | [] => []
  | (Pattern.binder, b) :: rest =>
    (Pattern.binder, instValue (k + 1) (liftValue 0 sub) b) ::
      instValueClauses k sub rest
  | (Pattern.literal lit, b) :: rest =>
    (Pattern.literal lit, instValue k sub b) :: instValueClauses k sub rest
termination_by cs => sizeOf cs

/-- Value instantiation on a value list. -/
def instValueList (k : Nat) (sub : Value) : List Value → List Value
  | [] => []
  | v :: vs => instValue k sub v :: instValueList k sub vs
termination_by vs => sizeOf vs

end

mutual

/-- Modelled from the spec: the embedding of values back into core terms
(the source's `RcTerm::from(&Value)`, used by the evaluator's `Case`
rule and by any re-normalization of an evaluator result).  Each value
constructor maps to the corresponding term constructor and a neutral
becomes its head applied left-to-right to its spine. -/
def toTerm : Value → Term
  | .universe l => .universe l
  | .pi a b => .pi (toTerm a) (toTerm b)
  | .lam a b => .lam (toTerm a) (toTerm b)
  | .recordType l a r => .recordType l (toTerm a) (toTerm r)
  | .recordTypeEmpty => .recordTypeEmpty
  | .record l v r => .record l (toTerm v) (toTerm r)
  | .recordEmpty => .recordEmpty
  | .intType lo hi => .intType (toTermOpt lo) (toTermOpt hi)
  | .literal lit => .literal lit
  | .array xs => .array (toTermList xs)
  | .neutral n s => toTermSpine (toTerm n) s
  | .nvar v => .var v
  | .nglobal n => .global n
  | .next n t => .ext n (toTerm t)
  | .nif c t f => .ifte (toTerm c) (toTerm t) (toTerm f)
  | .nproj n l => .proj (toTerm n) l
  | .ncase n cs => .case (toTerm n) (toTermClauses cs)
termination_by v => sizeOf v

/-- The embedding of a neutral's spine: apply the head to each spine
value in order. -/
def toTermSpine (head : Term) : List Value → Term
  | [] => head
  | v :: vs => toTermSpine (.app head (toTerm v)) vs
termination_by vs => sizeOf vs

/-- The embedding of an optional interval bound. -/
def toTermOpt : Option Value → Option Term
  | none => none
  | some x => some (toTerm x)
termination_by o => sizeOf o

/-- The embedding of a value list. -/
def toTermList : List Value → List Term
  | [] => []
  | v :: vs => toTerm v :: toTermList vs
termination_by vs => sizeOf vs

/-- The embedding of a clause list. -/
def toTermClauses : List (Pattern × Value) → List (Pattern × Term)
  | [] => []
  | (p, b) :: rest => (p, toTerm b) :: toTermClauses rest
termination_by cs => sizeOf cs

end

/-- `Value::is_nf`, modelled from the spec's glossary: every value form
is a normal form except a neutral, which is stuck on an unknown. -/
def is_nf : Value → Bool
  | .neutral _ _ => false
  | _ => true

/-- `semantics::match_value`: if the pattern matches the value, the list
of values to substitute for the pattern's binders (the binder names are
implicit in de Bruijn form; a literal pattern binds nothing). -/
def match_value : Pattern → Value → Option (List Value)
  | .literal plit, .literal vlit =>
    if plit = vlit then some [] else none
  | .binder, v => some [v]
  | _, _ => none

/-- Modelled from the spec: `Value::lookup_record`, the record-field
lookup used by the `Proj` arm of `normalize`.  Scanning past a field
substitutes that field's value for the field's binder in the remainder
of the record ("after substituting earlier field values for their
dependencies"); the selected field's value is returned as found, with
no re-normalization.  The substitution can grow the remainder, so the
scan is fueled: `none` is fuel exhaustion, `some none` a missing
field. -/
def lookup_record (fuel : Nat) (v : Value) (label : String) :
    Option (Option Value) :=
  if _h : fuel = 0 then none
  else
    match v with
    | .record l fv rest =>
      if l = label then some (some fv)
      else lookup_record (fuel - 1) (instValue 0 fv rest) label
    | _ => some none
termination_by fuel
decreasing_by omega

/-- Modelled from the spec: applying a successful match's substitutions
to a clause body (the source's `body.substs(mappings)` with each matched
value embedded back into a term); in de Bruijn form each mapping
instantiates the outermost binder. -/
def apply_mappings (mappings : List Value) (body : Term) : Term :=
  match mappings with
  | [] => body
  | v :: rest => apply_mappings rest (instTerm 0 (toTerm v) body)

/-- `semantics::InternalError`, modelled from the design document's list
of evaluator failure conditions (`errors.rs` is not among the sources
handled here); payloads are dropped.  `primitiveReductionFailed` stands
for the `unimplemented!("proper error")` panic on a failing primitive
interpretation. -/
inductive InternalError where
  | unsubstitutedDebruijnIndex
  | argumentAppliedToNonFunction
  | expectedBoolExpr
  | projectedOnNonExistentField
  | noPatternsApplicable
  | primitiveReductionFailed
deriving DecidableEq, Repr

mutual

/-- `semantics::normalize`: reduce a core term to its normal form under
the environment, following the source's match arms case by case (E-ANN,
E-TYPE, interval types, literals, E-VAR/E-VAR-DEF, externs, globals,
E-PI, E-LAM, E-APP with primitive reduction, E-IF, record types,
records, E-PROJ, E-CASE, E-ARRAY).  The embedding is fueled (`none` is
fuel exhaustion; the source recursion is unbounded) and uses the pure
de Bruijn binding discipline the design document licenses: instead of
substituting a fresh free variable when entering a binder, the body is
normalized one binder level deeper (`d + 1`), a bound index below `d`
is a stuck variable (the freshened variable of the source), and an
index escaping all `d` enclosing binders is the source's
`UnsubstitutedDebruijnIndex` internal error from the `Var::Bound`
arm. -/
def normalize (env : TcEnv) (fuel : Nat) (d : Nat) (t : Term) :
    Option (Except InternalError Value) :=
  if _h : fuel = 0 then none
  else
    match t with
    | .ann expr _ => normalize env (fuel - 1) d expr
    | .universe l => some (.ok (.universe l))
    | .intType lo hi =>
      match normalizeOpt env (fuel - 1) d lo with
      | none => none
      | some (.error e) => some (.error e)
      | some (.ok lov) =>
        match normalizeOpt env (fuel - 1) d hi with
        | none => none
        | some (.error e) => some (.error e)
        | some (.ok hiv) => some (.ok (.intType lov hiv))
    | .literal lit => some (.ok (.literal lit))
    | .var (.free name) =>
      match env.definitions name with
      | some term => normalize env (fuel - 1) d term
      | none => some (.ok (.neutral (.nvar (.free name)) []))
    | .var (.bound k) =>
      if k < d then some (.ok (.neutral (.nvar (.bound k)) []))
      else some (.error .unsubstitutedDebruijnIndex)
    | .ext name ty =>
      match normalize env (fuel - 1) d ty with
      | none => none
      | some (.error e) => some (.error e)
      | some (.ok tyv) => some (.ok (.neutral (.next name tyv) []))
    | .global name =>
      match env.globals name with
      | some (some value, _) => some (.ok value)
      | some (none, _) => some (.ok (Value.global name))
      | none => some (.ok (Value.global name))
    | .pi ann body =>
      match normalize env (fuel - 1) d ann with
      | none => none
      | some (.error e) => some (.error e)
      | some (.ok annv) =>
        match normalize env (fuel - 1) (d + 1) body with
        | none => none
        | some (.error e) => some (.error e)
        | some (.ok bodyv) => some (.ok (.pi annv bodyv))
    | .lam ann body =>
      match normalize env (fuel - 1) d ann with
      | none => none
      | some (.error e) => some (.error e)
      | some (.ok annv) =>
        match normalize env (fuel - 1) (d + 1) body with
        | none => none
        | some (.error e) => some (.error e)
        | some (.ok bodyv) => some (.ok (.lam annv bodyv))
    | .app head arg =>
      match normalize env (fuel - 1) d head with
      | none => none
      | some (.error e) => some (.error e)
      | some (.ok headv) =>
        match headv with
        | .lam _ body =>
          normalize env (fuel - 1) d (instTerm 0 arg (toTerm body))
        | .neutral neu spine =>
          match normalize env (fuel - 1) d arg with
          | none => none
          | some (.error e) => some (.error e)
          | some (.ok argv) =>
            match neu with
            | .next name _ =>
              match env.primitives name with
              | some prim =>
                if prim.arity == (spine ++ [argv]).length &&
                    (spine ++ [argv]).all is_nf then
                  match prim.interpretation (spine ++ [argv]) with
                  | .ok value => some (.ok value)
                  | .error _ => some (.error .primitiveReductionFailed)
                else some (.ok (.neutral neu (spine ++ [argv])))
              | none => some (.ok (.neutral neu (spine ++ [argv])))
            | _ => some (.ok (.neutral neu (spine ++ [argv])))
        | _ => some (.error .argumentAppliedToNonFunction)
    | .ifte cond if_true if_false =>
      match normalize env (fuel - 1) d cond with
      | none => none
      | some (.error e) => some (.error e)
      | some (.ok condv) =>
        match condv with
        | .literal (.bool true) => normalize env (fuel - 1) d if_true
        | .literal (.bool false) => normalize env (fuel - 1) d if_false
        | .neutral neu spine =>
          match normalize env (fuel - 1) d if_true with
          | none => none
          | some (.error e) => some (.error e)
          | some (.ok tv) =>
            match normalize env (fuel - 1) d if_false with
            | none => none
            | some (.error e) => some (.error e)
            | some (.ok fv) => some (.ok (.neutral (.nif neu tv fv) spine))
        | _ => some (.error .expectedBoolExpr)
    | .recordType l ann rest =>
      match normalize env (fuel - 1) d ann with
      | none => none
      | some (.error e) => some (.error e)
      | some (.ok annv) =>
        match normalize env (fuel - 1) (d + 1) rest with
        | none => none
        | some (.error e) => some (.error e)
        | some (.ok restv) => some (.ok (.recordType l annv restv))
    | .recordTypeEmpty => some (.ok .recordTypeEmpty)
    | .record l value rest =>
      match normalize env (fuel - 1) d value with
      | none => none
      | some (.error e) => some (.error e)
      | some (.ok valuev) =>
        match normalize env (fuel - 1) (d + 1) rest with
        | none => none
        | some (.error e) => some (.error e)
        | some (.ok restv) => some (.ok (.record l valuev restv))
    | .recordEmpty => some (.ok .recordEmpty)
    | .proj expr label =>
      match normalize env (fuel - 1) d expr with
      | none => none
      | some (.error e) => some (.error e)
      | some (.ok exprv) =>
        match exprv with
        | .neutral neu spine => some (.ok (.neutral (.nproj neu label) spine))
        | v =>
          match lookup_record (fuel - 1) v label with
          | none => none
          | some (some value) => some (.ok value)
          | some none => some (.error .projectedOnNonExistentField)
    | .case head clauses =>
      match normalize env (fuel - 1) d head with
      | none => none
      | some (.error e) => some (.error e)
      | some (.ok headv) =>
        match headv with
        | .neutral neu spine =>
          match normalizeClauses env (fuel - 1) d clauses with
          | none => none
          | some (.error e) => some (.error e)
          | some (.ok clausesv) =>
            some (.ok (.neutral (.ncase neu clausesv) spine))
        | headv => normalizeCase env (fuel - 1) d clauses headv
    | .array elems =>
      match normalizeList env (fuel - 1) d elems with
      | none => none
      | some (.error e) => some (.error e)
      | some (.ok vals) => some (.ok (.array vals))
termination_by (fuel, sizeOf t)

/-- Normalization of an optional interval bound, as the `IntType` arm of
`normalize` performs it. -/
def normalizeOpt (env : TcEnv) (fuel : Nat) (d : Nat) :
    Option Term → Option (Except InternalError (Option Value))
  | none => some (.ok none)
  | some x =>
    match normalize env fuel d x with
    | none => none
    | some (.error e) => some (.error e)
    | some (.ok v) => some (.ok (some v))
termination_by o => (fuel, sizeOf o)

/-- Elementwise normalization of an array's elements, as the `Array` arm
of `normalize` performs it. -/
def normalizeList (env : TcEnv) (fuel : Nat) (d : Nat) :
    List Term → Option (Except InternalError (List Value))
  | [] => some (.ok [])
  | x :: xs =>
    match normalize env fuel d x with
    | none => none
    | some (.error e) => some (.error e)
    | some (.ok v) =>
      match normalizeList env fuel d xs with
      | none => none
      | some (.error e) => some (.error e)
      | some (.ok vs) => some (.ok (v :: vs))
termination_by ts => (fuel, sizeOf ts)

/-- Normalization of the clause bodies of a case elimination stuck on a
neutral scrutinee; each body is normalized under its pattern's
binders. -/
def normalizeClauses (env : TcEnv) (fuel : Nat) (d : Nat) :
    List (Pattern × Term) →
    Option (Except InternalError (List (Pattern × Value)))
  | [] => some (.ok [])
  | (p, body) :: rest =>
    match normalize env fuel (d + p.binds) body with
    | none => none
    | some (.error e) => some (.error e)
    | some (.ok bodyv) =>
      match normalizeClauses env fuel d rest with
      | none => none
      | some (.error e) => some (.error e)
      | some (.ok restv) => some (.ok ((p, bodyv) :: restv))
termination_by cs => (fuel, sizeOf cs)

/-- The clause scan of the `Case` arm of `normalize` on a non-neutral
scrutinee: the first clause whose pattern matches has the substitutions
applied to its body, which is then re-normalized; no applicable clause
is an internal error. -/
def normalizeCase (env : TcEnv) (fuel : Nat) (d : Nat)
    (clauses : List (Pattern × Term)) (headv : Value) :
    Option (Except InternalError Value) :=
  match clauses with
  | [] => some (.error .noPatternsApplicable)
  | (p, body) :: rest =>
    match match_value p headv with
    | some mappings =>
      if h : fuel = 0 then none
      else normalize env (fuel - 1) d (apply_mappings mappings body)
    | none => normalizeCase env fuel d rest headv
termination_by (fuel, sizeOf clauses)

end

end Fathom

namespace Ddl

/-!
Embedding of the `ddl` crate's surface elaborator
(`crates/ddl/src/surface/elaborate.rs`).  The crate's `core` and
`surface` syntax definitions, its `core::semantics` evaluator and its
`diagnostics` constructors are not among the sources handled here and are
modelled from the design document and from their call sites in the
elaborator.  Number literals are represented by their parsed integer
value (the design document treats the digit-string parsing as the
parser collaborator's concern), so `parse_big_int`/`parse_float` always
succeed; float payloads are carried as integers.  The diagnostic sink is
modelled by returning the list of diagnostics each call emits, in
emission order; the `unimplemented!` panic in `check_bool_branches` is
modelled by `Option.none`, which propagates through every caller.
-/

/-- `codespan::Span`: a byte range. -/
structure Span where
  start : Nat
  stop : Nat
deriving DecidableEq, Repr

/-- `Span::merge`: the smallest span covering both. -/
def Span.merge (s1 s2 : Span) : Span :=
  ⟨min s1.start s2.start, max s1.stop s2.stop⟩

/-- `Span::initial()`. -/
def Span.initial : Span := ⟨0, 0⟩

/-- `core::Label`: a string tag for items and fields. -/
abbrev Label := String

/-- The universes of the `ddl` core language. -/
inductive Universe where
  | type : Universe
  | format : Universe
  | kind : Universe
deriving DecidableEq, Repr

/-- `core::Constant`, modelled from its call sites; float payloads are
carried as integers. -/
inductive Constant where
  | int : Int → Constant
  | f32 : Int → Constant
  | f64 : Int → Constant
  | bool : Bool → Constant
deriving DecidableEq, Repr

/-- `core::Term` of the `ddl` crate, modelled from its call sites in the
elaborator: annotations, universes, item references, constants, boolean
and integer eliminations, and the error sentinel.  The integer
elimination's branch map (a `BTreeMap` in the source) is modelled as a
key-sorted association list. -/
inductive Term where
  | ann (tm : Term) (ty : Term) : Term
  | universe (span : Span) (u : Universe) : Term
  | item (span : Span) (label : Label) : Term
  | constant (span : Span) (c : Constant) : Term
  | boolElim (span : Span) (head : Term) (ifTrue : Term) (ifFalse : Term) : Term
  | intElim (span : Span) (head : Term) (branches : List (Int × Term))
      (default : Term) : Term
  | error (span : Span) : Term

/-- The heads of stuck `ddl` core values, modelled from the call sites:
item references are the only heads. -/
inductive Head where
  | item (label : Label) : Head
deriving DecidableEq, Repr

/-- Eliminations stacked on a stuck head.  Modelled from the design
document: boolean and integer eliminations suspended on an unknown. -/
inductive Elim where
  | boolE (ifTrue : Term) (ifFalse : Term) : Elim
  | intE (branches : List (Int × Term)) (default : Term) : Elim

/-- `core::Value` of the `ddl` crate: universes, constants, neutral
(stuck) terms and the error sentinel. -/
inductive Value where
  | universe (u : Universe) : Value
  | constant (c : Constant) : Value
  | neutral (head : Head) (elims : List Elim) : Value
  | error : Value

/-- Structural equality on `ddl` core terms; used by `equal` below. -/
def term_beq : Term → Term → Bool
  | .ann t1 y1, .ann t2 y2 => term_beq t1 t2 && term_beq y1 y2
  | .universe s1 u1, .universe s2 u2 => s1 == s2 && u1 == u2
  | .item s1 l1, .item s2 l2 => s1 == s2 && l1 == l2
  | .constant s1 c1, .constant s2 c2 => s1 == s2 && c1 == c2
  | .boolElim s1 h1 t1 f1, .boolElim s2 h2 t2 f2 =>
    s1 == s2 && term_beq h1 h2 && term_beq t1 t2 && term_beq f1 f2
  | .intElim s1 h1 b1 d1, .intElim s2 h2 b2 d2 =>
    s1 == s2 && term_beq h1 h2 && branches_beq b1 b2 && term_beq d1 d2
  | .error s1, .error s2 => s1 == s2
  | _, _ => false
where
  branches_beq : List (Int × Term) → List (Int × Term) → Bool
    | [], [] => true
    | (k1, v1) :: r1, (k2, v2) :: r2 => k1 == k2 && term_beq v1 v2 && branches_beq r1 r2
    | _, _ => false

/-- Structural equality on suspended eliminations. -/
def elim_beq : Elim → Elim → Bool
  | .boolE t1 f1, .boolE t2 f2 => term_beq t1 t2 && term_beq f1 f2
  | .intE b1 d1, .intE b2 d2 => term_beq.branches_beq b1 b2 && term_beq d1 d2
  | _, _ => false

/-- `core::semantics::equal`.  Modelled from the design document:
equality of values is alpha-equivalence, which for this first-order
value language is structural equality. -/
def equal (v1 v2 : Value) : Bool :=
  match v1, v2 with
  | .universe u1, .universe u2 => u1 == u2
  | .constant c1, .constant c2 => c1 == c2
  | .neutral h1 e1, .neutral h2 e2 => h1 == h2 && elims_beq e1 e2
  | .error, .error => true
  | _, _ => false
where
  elims_beq : List Elim → List Elim → Bool
    | [], [] => true
    | e1 :: r1, e2 :: r2 => elim_beq e1 e2 && elims_beq r1 r2
    | _, _ => false

mutual

/-- `core::semantics::eval`.  Modelled from the design document's
evaluator rules, restricted to the `ddl` core language: annotations are
discarded, universes and constants evaluate to themselves, item
references are stuck (items are unfolded by neither the elaborator nor
the checker in this crate), eliminations reduce on constants and are
suspended on neutrals, and the error sentinel absorbs everything. -/
def eval : Term → Value
  | .ann tm _ => eval tm
  | .universe _ u => .universe u
  | .item _ label => .neutral (.item label) []
  | .constant _ c => .constant c
  | .boolElim _ head ifTrue ifFalse =>
    match eval head with
    | .constant (.bool true) => eval ifTrue
    | .constant (.bool false) => eval ifFalse
    | .neutral h elims => .neutral h (elims ++ [.boolE ifTrue ifFalse])
    | _ => .error
  | .intElim _ head branches default =>
    match eval head with
    | .constant (.int n) => eval_branches branches default n
    | .neutral h elims => .neutral h (elims ++ [.intE branches default])
    | _ => .error
  | .error _ => .error
termination_by t => sizeOf t
decreasing_by
  all_goals simp_wf
  all_goals omega

/-- The branch-scan of `eval` on an integer elimination: evaluate the
first branch whose key is the scrutinee, falling back to the default. -/
def eval_branches : List (Int × Term) → Term → Int → Value
  | [], default, _ => eval default
  | (k, tm) :: rest, default, n =>
    if k = n then eval tm else eval_branches rest default n
termination_by bs d _ => sizeOf bs + sizeOf d
decreasing_by
  all_goals simp_wf
  all_goals omega

end

/-- `codespan_reporting::Severity`, restricted to the levels the
elaborator uses. -/
inductive Severity where
  | error : Severity
  | warning : Severity
deriving DecidableEq, Repr

/-- The diagnostics emitted by the elaborator, modelled from the
`diagnostics` constructor calls: each constructor records exactly the
arguments of the corresponding call site. -/
inductive Diagnostic where
  | itemRedefinition (sev : Severity) (fileId : Nat) (name : Label)
      (foundSpan : Span) (originalSpan : Span) : Diagnostic
  | fieldRedeclaration (sev : Severity) (fileId : Nat) (name : Label)
      (foundSpan : Span) (originalSpan : Span) : Diagnostic
  | universeMismatch (fileId : Nat) (span : Span) (found : Value) : Diagnostic
  | kindHasNoType (sev : Severity) (fileId : Nat) (span : Span) : Diagnostic
  | varNameNotFound (fileId : Nat) (name : String) (span : Span) : Diagnostic
  | ambiguousNumericLiteral (fileId : Nat) (span : Span) : Diagnostic
  | ambiguousMatchExpression (sev : Severity) (fileId : Nat) (span : Span) : Diagnostic
  | typeMismatch (sev : Severity) (fileId : Nat) (span : Span)
      (expected : Value) (found : Value) : Diagnostic
  | numericLiteralNotSupported (fileId : Nat) (span : Span) (ty : Value) : Diagnostic
  | unsupportedPatternTy (fileId : Nat) (span : Span) (ty : Value) : Diagnostic
  | unreachablePattern (fileId : Nat) (span : Span) : Diagnostic
  | noDefaultPattern (fileId : Nat) (span : Span) : Diagnostic

namespace surface

/-- `surface::Pattern`: number-literal patterns and name patterns.
The number literal is carried as its parsed integer value. -/
inductive Pattern where
  | numberLiteral (span : Span) (lit : Int) : Pattern
  | name (span : Span) (name : String) : Pattern

/-- `surface::Term`, modelled from the design document's list of parser
node kinds: identifier references, parenthesization, annotation, number
literals, `if`/`else`, `match` and the error node. -/
inductive Term where
  | paren (span : Span) (tm : Term) : Term
  | ann (tm : Term) (ty : Term) : Term
  | name (span : Span) (s : String) : Term
  | numberLiteral (span : Span) (lit : Int) : Term
  | ifte (span : Span) (head : Term) (ifTrue : Term) (ifFalse : Term) : Term
  | matchE (span : Span) (head : Term)
      (branches : List (Pattern × Term)) : Term
  | error (span : Span) : Term

/-- `surface::Term::span`.  The span of an annotation (which carries no
span of its own) is modelled as the merge of its components' spans. -/
def Term.span : Term → Span
  | .paren s _ => s
  | .ann tm ty => Span.merge tm.span ty.span
  | .name s _ => s
  | .numberLiteral s _ => s
  | .ifte s _ _ _ => s
  | .matchE s _ _ => s
  | .error s => s

/-- `surface::TypeField`: a struct field declaration.  `name.1` is the
name's span and `name.2` the name itself. -/
structure TypeField where
  doc : String
  name : Span × String
  term : Term

/-- `surface::Alias`: `name (: ty)? = term`. -/
structure Alias where
  span : Span
  doc : String
  name : Span × String
  ty : Option Term
  term : Term

/-- `surface::StructType`: `struct name { fields }`. -/
structure StructType where
  span : Span
  doc : String
  name : Span × String
  fields : List TypeField

/-- `surface::Item`. -/
inductive Item where
  | alias (a : Alias) : Item
  | struct (s : StructType) : Item

/-- `surface::Module`. -/
structure Module where
  fileId : Nat
  doc : String
  items : List Item

end surface

/-- `core::Alias`. -/
structure Alias where
  span : Span
  doc : String
  name : Label
  term : Term

/-- `core::TypeField`. -/
structure TypeField where
  doc : String
  start : Nat
  name : Label
  term : Term

/-- `core::StructType`. -/
structure StructType where
  span : Span
  doc : String
  name : Label
  fields : List TypeField

/-- `core::Item`. -/
inductive Item where
  | alias (a : Alias) : Item
  | struct (s : StructType) : Item

/-- `core::Module`. -/
structure Module where
  fileId : Nat
  doc : String
  items : List Item

/-- `TermContext`: the file id and the previously elaborated items
(label, introduction span and type), in insertion order.  The source's
`HashMap` is modelled as an association list with unique labels. -/
structure TermContext where
  fileId : Nat
  items : List (Label × Span × Value)

/-- `ItemContext`: the file id and the items elaborated so far. -/
structure ItemContext where
  fileId : Nat
  items : List (Label × Span × Value)

/-- `FieldContext`: the item context together with the fields elaborated
so far in the current struct (label and introduction span). -/
structure FieldContext where
  fileId : Nat
  items : List (Label × Span × Value)
  fields : List (Label × Span)

/-- `ItemContext::term_context`. -/
def ItemContext.term_context (c : ItemContext) : TermContext :=
  ⟨c.fileId, c.items⟩

/-- `ItemContext::field_context`. -/
def ItemContext.field_context (c : ItemContext) : FieldContext :=
  ⟨c.fileId, c.items, []⟩

/-- `FieldContext::term_context`. -/
def FieldContext.term_context (c : FieldContext) : TermContext :=
  ⟨c.fileId, c.items⟩

/-- Lookup in the item table (`HashMap::get` / `Entry` on unique keys). -/
def lookup_item : List (Label × Span × Value) → Label → Option (Span × Value)
  | [], _ => none
  | (l, sv) :: rest, label => if l = label then some sv else lookup_item rest label

/-- Lookup in the field table of a struct under elaboration. -/
def lookup_field : List (Label × Span) → Label → Option Span
  | [], _ => none
  | (l, s) :: rest, label => if l = label then some s else lookup_field rest label

/-- Insertion into the key-sorted branch map of an integer elimination
(`BTreeMap::insert` on a fresh key). -/
def insert_branch : List (Int × Term) → Int → Term → List (Int × Term)
  | [], k, v => [(k, v)]
  | (k', v') :: rest, k, v =>
    if k < k' then (k, v) :: (k', v') :: rest
    else (k', v') :: insert_branch rest k v

/-- The type `Bool` as a stuck item reference, as built inline by
`check_term` and `synth_term`. -/
def bool_ty : Value := .neutral (.item "Bool") []

/-- `check_bool_branches` is `unimplemented!("boolean eliminators")` in
the source: every call panics.  The panic is modelled by `none`, which
propagates through every caller. -/
def check_bool_branches (_context : TermContext)
    (_surface_branches : List (surface.Pattern × surface.Term))
    (_expected_ty : Value) : Option ((Term × Term) × List Diagnostic) :=
  none

mutual

/-- `elaborate_universe`: check that a surface term is a type or kind and
elaborate it.  The reserved names `Type`, `Format` and `Kind` elaborate
directly to universes when not shadowed by an item; anything else is
synthesized and must have a universe (or the error value) as its type. -/
def elaborate_universe (context : TermContext) (surface_term : surface.Term) :
    Option (Term × List Diagnostic) :=
  match surface_term with
  | .name span name =>
    if ¬(lookup_item context.items "Type").isSome ∧ name = "Type" then
      some (.universe span .type, [])
    else if ¬(lookup_item context.items "Format").isSome ∧ name = "Format" then
      some (.universe span .format, [])
    else if ¬(lookup_item context.items "Kind").isSome ∧ name = "Kind" then
      some (.universe span .kind, [])
    else
      match synth_term context (surface.Term.name span name) with
      | none => none
      | some ((core_term, .universe _), ds) => some (core_term, ds)
      | some ((core_term, .error), ds) => some (core_term, ds)
      | some ((_, ty), ds) =>
        some (.error span, ds ++ [.universeMismatch context.fileId span ty])
  | tm =>
    match synth_term context tm with
    | none => none
    | some ((core_term, .universe _), ds) => some (core_term, ds)
    | some ((core_term, .error), ds) => some (core_term, ds)
    | some ((_, ty), ds) =>
      some (.error tm.span, ds ++ [.universeMismatch context.fileId tm.span ty])
termination_by (sizeOf surface_term, 1)
decreasing_by
  all_goals simp_wf
  all_goals omega

/-- `check_term`: check a surface term against an expected type and
elaborate it into the core syntax. -/
def check_term (context : TermContext) (surface_term : surface.Term)
    (expected_ty : Value) : Option (Term × List Diagnostic) :=
  match surface_term, expected_ty with
  | .error span, _ => some (.error span, [])
  | tm, .error => some (.error tm.span, [])
  | .paren _ tm, expected => check_term context tm expected
  | .numberLiteral span lit, expected =>
    match expected with
    | .neutral (.item label) [] =>
      match label with
      | "Int" => some (.constant span (.int lit), [])
      | "F32" => some (.constant span (.f32 lit), [])
      | "F64" => some (.constant span (.f64 lit), [])
      | _ =>
        some (.error span,
          [.numericLiteralNotSupported context.fileId span expected])
    | _ =>
      some (.error span,
        [.numericLiteralNotSupported context.fileId span expected])
  | .ifte span shead sif_true sif_false, expected =>
    match check_term context shead bool_ty with
    | none => none
    | some (head, ds1) =>
      match check_term context sif_true expected with
      | none => none
      | some (if_true, ds2) =>
        match check_term context sif_false expected with
        | none => none
        | some (if_false, ds3) =>
          some (.boolElim span head if_true if_false, ds1 ++ ds2 ++ ds3)
  | .matchE span shead sbranches, expected =>
    match synth_term context shead with
    | none => none
    | some ((head, head_ty), ds0) =>
      match head_ty with
      | .neutral (.item label) [] =>
        match label with
        | "Bool" =>
          match check_bool_branches context sbranches expected with
          | none => none
          | some ((if_true, if_false), ds1) =>
            some (.boolElim span head if_true if_false, ds0 ++ ds1)
        | "Int" =>
          match check_int_branches context shead.span sbranches expected with
          | none => none
          | some ((branches, default), ds1) =>
            some (.intElim span head branches default, ds0 ++ ds1)
        | _ =>
          some (.error span,
            ds0 ++ [.unsupportedPatternTy context.fileId shead.span head_ty])
      | .error => some (.error span, ds0)
      | head_ty =>
        some (.error span,
          ds0 ++ [.unsupportedPatternTy context.fileId shead.span head_ty])
  | tm, expected =>
    match synth_term context tm with
    | none => none
    | some ((core_term, synth_ty), ds) =>
      if equal synth_ty expected then some (core_term, ds)
      else
        some (.error tm.span,
          ds ++ [.typeMismatch .error context.fileId tm.span expected synth_ty])
termination_by (sizeOf surface_term, 1)
decreasing_by
  all_goals simp_wf
  all_goals omega

/-- `synth_term`: synthesize the type of a surface term and elaborate it
into the core syntax. -/
def synth_term (context : TermContext) (surface_term : surface.Term) :
    Option ((Term × Value) × List Diagnostic) :=
  match surface_term with
  | .paren _ tm => synth_term context tm
  | .ann tm ty =>
    match elaborate_universe context ty with
    | none => none
    | some (core_ty, ds1) =>
      match check_term context tm (eval core_ty) with
      | none => none
      | some (core_term, ds2) =>
        some ((.ann core_term core_ty, eval core_ty), ds1 ++ ds2)
  | .name span nm =>
    match lookup_item context.items nm with
    | some (_, ty) => some ((.item span nm, ty), [])
    | none =>
      match nm with
      | "Kind" =>
        some ((.error span, .error), [.kindHasNoType .error context.fileId span])
      | "Type" => some ((.universe span .type, .universe .kind), [])
      | "Format" => some ((.universe span .format, .universe .kind), [])
      | "U8" | "U16Le" | "U16Be" | "U32Le" | "U32Be" | "U64Le" | "U64Be"
      | "S8" | "S16Le" | "S16Be" | "S32Le" | "S32Be" | "S64Le" | "S64Be"
      | "F32Le" | "F32Be" | "F64Le" | "F64Be" =>
        some ((.item span nm, .universe .format), [])
      | "Bool" | "Int" | "F32" | "F64" =>
        some ((.item span nm, .universe .type), [])
      | "true" => some ((.constant span (.bool true), bool_ty), [])
      | "false" => some ((.constant span (.bool false), bool_ty), [])
      | _ =>
        some ((.error span, .error), [.varNameNotFound context.fileId nm span])
  | .numberLiteral span _ =>
    some ((.error span, .error), [.ambiguousNumericLiteral context.fileId span])
  | .ifte span shead sif_true sif_false =>
    match check_term context shead bool_ty with
    | none => none
    | some (head, ds1) =>
      match synth_term context sif_true with
      | none => none
      | some ((if_true, if_true_ty), ds2) =>
        match synth_term context sif_false with
        | none => none
        | some ((if_false, if_false_ty), ds3) =>
          if equal if_true_ty if_false_ty then
            some ((.boolElim span head if_true if_false, if_true_ty),
              ds1 ++ ds2 ++ ds3)
          else
            some ((.error span, .error),
              ds1 ++ ds2 ++ ds3 ++
                [.typeMismatch .error context.fileId sif_false.span
                  if_true_ty if_false_ty])
  | .matchE span _ _ =>
    some ((.error span, .error),
      [.ambiguousMatchExpression .error context.fileId span])
  | .error span => some ((.error span, .error), [])
termination_by (sizeOf surface_term, 0)
decreasing_by
  all_goals simp_wf
  all_goals omega

/-- `check_int_branches`: elaborate the branches of a match on an
integer scrutinee into a branch map and a default body; a missing
default pattern is an error and the default becomes the error sentinel. -/
def check_int_branches (context : TermContext) (span : Span)
    (surface_branches : List (surface.Pattern × surface.Term))
    (expected_ty : Value) :
    Option ((List (Int × Term) × Term) × List Diagnostic) :=
  match check_int_branches_loop context surface_branches expected_ty [] none with
  | none => none
  | some ((branches, some default), ds) => some ((branches, default), ds)
  | some ((branches, none), ds) =>
    some ((branches, .error Span.initial),
      ds ++ [.noDefaultPattern context.fileId span])
termination_by (sizeOf surface_branches, 1)
decreasing_by all_goals omega

/-- The branch loop of `check_int_branches`, threading the accumulated
branch map and default body.  Every branch body is checked against the
expected type before the pattern is examined; a literal pattern that
duplicates an accumulated key or follows the default, and any name
pattern after the default, emit an unreachable-pattern warning. -/
def check_int_branches_loop (context : TermContext)
    (surface_branches : List (surface.Pattern × surface.Term))
    (expected_ty : Value) (branches : List (Int × Term))
    (default : Option Term) :
    Option ((List (Int × Term) × Option Term) × List Diagnostic) :=
  match surface_branches with
  | [] => some ((branches, default), [])
  | (pattern, surface_term) :: rest =>
    match pattern with
    | .numberLiteral span lit =>
      match check_term context surface_term expected_ty with
      | none => none
      | some (core_term, ds1) =>
        match default with
        | none =>
          if branches.any (fun b => b.1 == lit) then
            match check_int_branches_loop context rest expected_ty
                branches default with
            | none => none
            | some (result, ds2) =>
              some (result,
                ds1 ++ [.unreachablePattern context.fileId span] ++ ds2)
          else
            match check_int_branches_loop context rest expected_ty
                (insert_branch branches lit core_term) default with
            | none => none
            | some (result, ds2) => some (result, ds1 ++ ds2)
        | some _ =>
          match check_int_branches_loop context rest expected_ty
              branches default with
          | none => none
          | some (result, ds2) =>
            some (result,
              ds1 ++ [.unreachablePattern context.fileId span] ++ ds2)
    | .name span _name =>
      match check_term context surface_term expected_ty with
      | none => none
      | some (core_term, ds1) =>
        match default with
        | none =>
          match check_int_branches_loop context rest expected_ty
              branches (some core_term) with
          | none => none
          | some (result, ds2) => some (result, ds1 ++ ds2)
        | some _ =>
          match check_int_branches_loop context rest expected_ty
              branches default with
          | none => none
          | some (result, ds2) =>
            some (result,
              ds1 ++ [.unreachablePattern context.fileId span] ++ ds2)
termination_by (sizeOf surface_branches, 0)
decreasing_by
  all_goals simp_wf
  all_goals omega

end

/-- `elaborate_struct_ty_fields`: elaborate the fields of a struct type;
each field's type is checked against `Format`; a duplicate field label
emits a redeclaration diagnostic and the first definition wins. -/
def elaborate_struct_ty_fields (context : FieldContext)
    (surface_fields : List surface.TypeField) :
    Option (List TypeField × List Diagnostic) :=
  match surface_fields with
  | [] => some ([], [])
  | field :: rest =>
    let label := field.name.2
    let field_span := Span.merge field.name.1 field.term.span
    match check_term context.term_context field.term (.universe .format) with
    | none => none
    | some (ty, ds1) =>
      match lookup_field context.fields label with
      | none =>
        match elaborate_struct_ty_fields
            { context with fields := context.fields ++ [(label, field_span)] }
            rest with
        | none => none
        | some (core_fields, ds2) =>
          some (⟨field.doc, field_span.start, label, ty⟩ :: core_fields,
            ds1 ++ ds2)
      | some original_span =>
        match elaborate_struct_ty_fields context rest with
        | none => none
        | some (core_fields, ds2) =>
          some (core_fields,
            ds1 ++ [.fieldRedeclaration .error context.fileId label
              field_span original_span] ++ ds2)

/-- `elaborate_items`: elaborate the items of a module in order,
threading the item table.  An item whose term (or fields) elaborated is
added to the table and the output only when its label is fresh; a
duplicate label emits a redefinition diagnostic that records the
original item's span, and the original binding is kept. -/
def elaborate_items (context : ItemContext) (surface_items : List surface.Item) :
    Option (List Item × List Diagnostic) :=
  match surface_items with
  | [] => some ([], [])
  | .alias al :: rest =>
    let label := al.name.2
    match (match al.ty with
           | some surface_ty =>
             match elaborate_universe context.term_context surface_ty with
             | none => none
             | some (core_ty, ds1) =>
               match check_term context.term_context al.term (eval core_ty) with
               | none => none
               | some (core_term, ds2) =>
                 some ((Term.ann core_term core_ty, eval core_ty), ds1 ++ ds2)
           | none => synth_term context.term_context al.term) with
    | none => none
    | some ((core_term, ty), ds) =>
      match lookup_item context.items label with
      | none =>
        match elaborate_items
            ⟨context.fileId, context.items ++ [(label, al.span, ty)]⟩ rest with
        | none => none
        | some (core_items, dsr) =>
          some (Item.alias ⟨al.span, al.doc, label, core_term⟩ :: core_items,
            ds ++ dsr)
      | some (original_span, _) =>
        match elaborate_items context rest with
        | none => none
        | some (core_items, dsr) =>
          some (core_items,
            ds ++ [.itemRedefinition .error context.fileId label al.span
              original_span] ++ dsr)
  | .struct struct_ty :: rest =>
    let label := struct_ty.name.2
    match elaborate_struct_ty_fields context.field_context struct_ty.fields with
    | none => none
    | some (core_fields, ds) =>
      match lookup_item context.items label with
      | none =>
        match elaborate_items
            ⟨context.fileId,
              context.items ++ [(label, struct_ty.span, Value.universe .format)]⟩
            rest with
        | none => none
        | some (core_items, dsr) =>
          some (Item.struct ⟨struct_ty.span, struct_ty.doc, label, core_fields⟩ ::
              core_items,
            ds ++ dsr)
      | some (original_span, _) =>
        match elaborate_items context rest with
        | none => none
        | some (core_items, dsr) =>
          some (core_items,
            ds ++ [.itemRedefinition .error context.fileId label struct_ty.span
              original_span] ++ dsr)

/-- `elaborate_module`: elaborate a surface module. -/
def elaborate_module (surface_module : surface.Module) :
    Option (Module × List Diagnostic) :=
  match elaborate_items ⟨surface_module.fileId, []⟩ surface_module.items with
  | none => none
  | some (items, ds) =>
    some (⟨surface_module.fileId, surface_module.doc, items⟩, ds)

/-- The span a surface pattern carries. -/
def surface.Pattern.span : surface.Pattern → Span
  | .numberLiteral sp _ => sp
  | .name sp _ => sp

/-- Whether a surface pattern is a name (default) pattern. -/
def surface.Pattern.isNamePat : surface.Pattern → Bool
  | .numberLiteral _ _ => false
  | .name _ _ => true

/-- The label under which a surface item would be recorded. -/
def surface.Item.label : surface.Item → Label
  | .alias a => a.name.2
  | .struct s => s.name.2

/-- The span of a surface item. -/
def surface.Item.span : surface.Item → Span
  | .alias a => a.span
  | .struct s => s.span

end Ddl

/-! ## Theorems about the type-theoretic core -/

namespace Fathom

set_option maxHeartbeats 3200000 in
mutual

theorem term_eq_iff : ∀ v w : Value, term_eq v w = true ↔ v = w
  | .universe _, w => by cases w <;> simp [term_eq]
  | .pi a b, w => by
    cases w <;> simp [term_eq, term_eq_iff a, term_eq_iff b]
  | .lam a b, w => by
    cases w <;> simp [term_eq, term_eq_iff a, term_eq_iff b]
  | .recordType l a r, w => by
    cases w <;> simp [term_eq, term_eq_iff a, term_eq_iff r, and_assoc]
  | .recordTypeEmpty, w => by cases w <;> simp [term_eq]
  | .record l v r, w => by
    cases w <;> simp [term_eq, term_eq_iff v, term_eq_iff r, and_assoc]
  | .recordEmpty, w => by cases w <;> simp [term_eq]
  | .intType lo hi, w => by
    cases w <;> simp [term_eq, optEq_iff lo, optEq_iff hi]
  | .literal l, w => by cases w <;> simp [term_eq]
  | .array xs, w => by cases w <;> simp [term_eq, listEq_iff xs]
  | .neutral n s, w => by
    cases w <;> simp [term_eq, term_eq_iff n, listEq_iff s]
  | .nvar v, w => by cases w <;> simp [term_eq]
  | .nglobal n, w => by cases w <;> simp [term_eq]
  | .next n t, w => by cases w <;> simp [term_eq, term_eq_iff t]
  | .nif c t f, w => by
    cases w <;>
      simp [term_eq, term_eq_iff c, term_eq_iff t, term_eq_iff f, and_assoc]
  | .nproj n l, w => by cases w <;> simp [term_eq, term_eq_iff n]
  | .ncase n c, w => by
    cases w <;> simp [term_eq, term_eq_iff n, clausesEq_iff c]

theorem optEq_iff : ∀ o p : Option Value, term_eq.optEq o p = true ↔ o = p
  | none, p => by cases p <;> simp [term_eq.optEq]
  | some v, p => by cases p <;> simp [term_eq.optEq, term_eq_iff v]

theorem listEq_iff : ∀ xs ys : List Value, term_eq.listEq xs ys = true ↔ xs = ys
  | [], ys => by cases ys <;> simp [term_eq.listEq]
  | x :: xs, ys => by
    cases ys <;> simp [term_eq.listEq, term_eq_iff x, listEq_iff xs]

theorem clausesEq_iff :
    ∀ xs ys : List (Pattern × Value), term_eq.clausesEq xs ys = true ↔ xs = ys
  | [], ys => by cases ys <;> simp [term_eq.clausesEq]
  | (p, v) :: xs, ys => by
    cases ys with
    | nil => simp [term_eq.clausesEq]
    | cons y ys =>
      obtain ⟨q, w⟩ := y
      simp [term_eq.clausesEq, term_eq_iff v, clausesEq_iff xs, and_assoc]

end

theorem term_eq_refl (v : Value) : term_eq v v = true :=
  (term_eq_iff v v).mpr rfl

theorem as_int_literal_some (v : Value) (n : Int) :
    as_int_literal v = some n ↔ v = .literal (.int n) := by
  cases v <;> try simp [as_int_literal]
  case literal l => cases l <;> simp [as_int_literal]

theorem term_eq_eq_false (v w : Value) : term_eq v w = false ↔ v ≠ w := by
  have h := term_eq_iff v w
  cases htv : term_eq v w <;> rw [htv] at h <;> simp_all

theorem in_min_bound_iff :
    ∀ lo1 lo2, in_min_bound lo1 lo2 = true ↔ spec_lower_ok lo1 lo2
  | none, none => by simp [in_min_bound, spec_lower_ok]
  | some v1, none => by simp [in_min_bound, spec_lower_ok]
  | none, some v2 => by simp [in_min_bound, spec_lower_ok]
  | some v1, some v2 => by
    simp only [in_min_bound, spec_lower_ok]
    cases h1 : as_int_literal v1 <;> cases h2 : as_int_literal v2 <;>
      simp [term_eq_iff]

theorem in_max_bound_iff :
    ∀ hi1 hi2, in_max_bound hi1 hi2 = true ↔ spec_upper_ok hi1 hi2
  | none, none => by simp [in_max_bound, spec_upper_ok]
  | some v1, none => by simp [in_max_bound, spec_upper_ok]
  | none, some v2 => by simp [in_max_bound, spec_upper_ok]
  | some v1, some v2 => by
    simp only [in_max_bound, spec_upper_ok]
    cases h1 : as_int_literal v1 <;> cases h2 : as_int_literal v2 <;>
      simp [term_eq_iff]

/-- **C2.** `IntType(lo1, hi1)` is a subtype of `IntType(lo2, hi2)` if and
only if `lo2 ≤ lo1` and `hi1 ≤ hi2`, where an absent low bound is negative
infinity and an absent high bound positive infinity; two integer-literal
bounds compare numerically, and any other pair of present bounds must be
alpha-equal. -/
theorem interval_subtype_iff (lo1 hi1 lo2 hi2 : Option Value) :
    is_subtype (.intType lo1 hi1) (.intType lo2 hi2) = true ↔
      spec_lower_ok lo1 lo2 ∧ spec_upper_ok hi1 hi2 := by
  simp [is_subtype, in_min_bound_iff, in_max_bound_iff]

set_option maxHeartbeats 1600000 in
/-- **C4.** `F32Le` and `F32Be` are subtypes of `F32`, `F64Le` and `F64Be`
are subtypes of `F64`, but the two endian variants of each width are not
subtypes of each other. -/
theorem float_endian_subtyping :
    is_subtype (global_type_value "F32Le") (global_type_value "F32") = true ∧
    is_subtype (global_type_value "F32Be") (global_type_value "F32") = true ∧
    is_subtype (global_type_value "F64Le") (global_type_value "F64") = true ∧
    is_subtype (global_type_value "F64Be") (global_type_value "F64") = true ∧
    is_subtype (global_type_value "F32Le") (global_type_value "F32Be") = false ∧
    is_subtype (global_type_value "F32Be") (global_type_value "F32Le") = false ∧
    is_subtype (global_type_value "F64Le") (global_type_value "F64Be") = false ∧
    is_subtype (global_type_value "F64Be") (global_type_value "F64Le") = false := by
  refine ⟨?_, ?_, ?_, ?_, ?_, ?_, ?_, ?_⟩ <;>
    simp [global_type_value, default_tc_env, default_globals, Value.global,
      is_subtype, is_name, term_eq_eq_false]

theorem check_int_literal_interval (n lo hi : Int) :
    (check_literal (.int n)
        (.intType (some (.literal (.int lo))) (some (.literal (.int hi))))).isOk
      = true ↔ lo ≤ n ∧ n ≤ hi := by
  simp [check_literal, Value.global_app, check_literal_fallback, infer_literal,
    is_subtype, in_min_bound, in_max_bound, as_int_literal,
    apply_ite Except.isOk, Except.isOk, Except.toBool]
  split <;> rename_i heq <;> split at heq <;> simp_all

/-- **C1 (amended).** For the interval-valued built-in types
`U8..U64, S8..S64`, checking the integer literal `n` against the type
succeeds if and only if `min(Ty) ≤ n ≤ max(Ty)`.  For the endian-tagged
sized integer types (`U16Le..U64Le`, `U16Be..U64Be`, `S16Le..S64Le`,
`S16Be..S64Be`) the check always fails: those globals normalize to stuck
neutrals, `is_subtype` only relates such a name to an interval when the
name is on the left, and the literal's singleton interval type is never
alpha-equal to the stuck global. -/
theorem sized_int_literal_check (n : Int) :
    ((check_int_literal n "U8").isOk = true ↔ 0 ≤ n ∧ n ≤ 255) ∧
    ((check_int_literal n "U16").isOk = true ↔ 0 ≤ n ∧ n ≤ 65535) ∧
    ((check_int_literal n "U32").isOk = true ↔ 0 ≤ n ∧ n ≤ 4294967295) ∧
    ((check_int_literal n "U64").isOk = true ↔
      0 ≤ n ∧ n ≤ 18446744073709551615) ∧
    ((check_int_literal n "S8").isOk = true ↔ -128 ≤ n ∧ n ≤ 127) ∧
    ((check_int_literal n "S16").isOk = true ↔ -32768 ≤ n ∧ n ≤ 32767) ∧
    ((check_int_literal n "S32").isOk = true ↔
      -2147483648 ≤ n ∧ n ≤ 2147483647) ∧
    ((check_int_literal n "S64").isOk = true ↔
      -9223372036854775808 ≤ n ∧ n ≤ 9223372036854775807) ∧
    ((check_int_literal n "U16Le").isOk = false) ∧
    ((check_int_literal n "U32Le").isOk = false) ∧
    ((check_int_literal n "U64Le").isOk = false) ∧
    ((check_int_literal n "S16Le").isOk = false) ∧
    ((check_int_literal n "S32Le").isOk = false) ∧
    ((check_int_literal n "S64Le").isOk = false) ∧
    ((check_int_literal n "U16Be").isOk = false) ∧
    ((check_int_literal n "U32Be").isOk = false) ∧
    ((check_int_literal n "U64Be").isOk = false) ∧
    ((check_int_literal n "S16Be").isOk = false) ∧
    ((check_int_literal n "S32Be").isOk = false) ∧
    ((check_int_literal n "S64Be").isOk = false) := by
  refine ⟨?_, ?_, ?_, ?_, ?_, ?_, ?_, ?_, ?_, ?_, ?_, ?_, ?_, ?_, ?_, ?_, ?_,
    ?_, ?_, ?_⟩ <;>
    simp [check_int_literal, global_type_value, default_tc_env,
      default_globals, int_ty, Option.map, Value.global, check_literal,
      Value.global_app, check_literal_fallback, infer_literal, is_subtype,
      is_name, in_min_bound, in_max_bound, as_int_literal, term_eq,
      apply_ite Except.isOk, Except.isOk, Except.toBool]
  all_goals (split <;> rename_i heq <;> split at heq <;> simp_all)

/-- **C1 (counterexample).** The claim fails for the endian-tagged types:
`0` lies between `min(U16Le) = 0` and `max(U16Le) = 65535`, yet checking
the literal `0` against `U16Le` does not succeed. -/
theorem sized_int_literal_check_cex :
    ¬(((check_int_literal 0 "U16Le").isOk = true) ↔
      (0 ≤ (0 : Int) ∧ (0 : Int) ≤ 65535)) := by
  intro h
  have h0 : (0 ≤ (0 : Int) ∧ (0 : Int) ≤ 65535) := by norm_num
  have := h.mpr h0
  simp [check_int_literal, global_type_value, default_tc_env,
    default_globals, Value.global, check_literal, Value.global_app,
    check_literal_fallback, infer_literal, is_subtype, is_name,
    term_eq, apply_ite Except.isOk, Except.isOk, Except.toBool] at this

theorem in_min_bound_refl : ∀ lo, in_min_bound lo lo = true
  | none => rfl
  | some v => by
    simp only [in_min_bound]
    cases h : as_int_literal v <;> simp [term_eq_refl]

theorem in_max_bound_refl : ∀ hi, in_max_bound hi hi = true
  | none => rfl
  | some v => by
    simp only [in_max_bound]
    cases h : as_int_literal v <;> simp [term_eq_refl]

theorem in_min_bound_trans :
    ∀ a b c, in_min_bound a b = true → in_min_bound b c = true →
      in_min_bound a c = true
  | a, b, none => by cases a <;> simp [in_min_bound]
  | none, none, some w => by simp [in_min_bound]
  | none, some u, some w => by simp [in_min_bound]
  | some v, none, some w => by simp [in_min_bound]
  | some v, some u, some w => by
    intro h1 h2
    simp only [in_min_bound] at h1 h2 ⊢
    cases hv : as_int_literal v <;> cases hu : as_int_literal u <;>
      cases hw : as_int_literal w <;>
      simp only [hv, hu, hw, term_eq_iff, ge_iff_le, decide_eq_true_eq] at h1 h2 ⊢ <;>
      first
        | omega
        | (subst_vars; simp_all)

theorem in_max_bound_trans :
    ∀ a b c, in_max_bound a b = true → in_max_bound b c = true →
      in_max_bound a c = true
  | a, b, none => by cases a <;> simp [in_max_bound]
  | none, none, some w => by simp [in_max_bound]
  | none, some u, some w => by simp [in_max_bound]
  | some v, none, some w => by simp [in_max_bound]
  | some v, some u, some w => by
    intro h1 h2
    simp only [in_max_bound] at h1 h2 ⊢
    cases hv : as_int_literal v <;> cases hu : as_int_literal u <;>
      cases hw : as_int_literal w <;>
      simp only [hv, hu, hw, term_eq_iff, decide_eq_true_eq] at h1 h2 ⊢ <;>
      first
        | omega
        | (subst_vars; simp_all)

/-- **C5.** Subtyping restricted to interval types is reflexive and
transitive: `IntType(a, b) <: IntType(a, b)` for all optional bounds, and
`A <: B` together with `B <: C` implies `A <: C` for interval types. -/
theorem interval_subtype_refl_trans :
    (∀ lo hi : Option Value,
      is_subtype (.intType lo hi) (.intType lo hi) = true) ∧
    (∀ lo1 hi1 lo2 hi2 lo3 hi3 : Option Value,
      is_subtype (.intType lo1 hi1) (.intType lo2 hi2) = true →
      is_subtype (.intType lo2 hi2) (.intType lo3 hi3) = true →
      is_subtype (.intType lo1 hi1) (.intType lo3 hi3) = true) := by
  constructor
  · intro lo hi
    simp [is_subtype, in_min_bound_refl, in_max_bound_refl]
  · intro lo1 hi1 lo2 hi2 lo3 hi3 h1 h2
    simp only [is_subtype, Bool.and_eq_true] at h1 h2 ⊢
    exact ⟨in_min_bound_trans _ _ _ h1.1 h2.1, in_max_bound_trans _ _ _ h1.2 h2.2⟩

/-- Witness for `interval_subtype_refl_trans`: the transitivity part at
the concrete intervals `IntType(0, 5) <: IntType(0, 10) <: IntType(None, None)`. -/
theorem interval_subtype_refl_trans_witness :
    is_subtype
      (.intType (some (.literal (.int 0))) (some (.literal (.int 5))))
      (.intType none none) = true :=
  interval_subtype_refl_trans.2
    (some (.literal (.int 0))) (some (.literal (.int 5)))
    (some (.literal (.int 0))) (some (.literal (.int 10)))
    none none
    (by simp [is_subtype, in_min_bound, in_max_bound, as_int_literal])
    (by simp [is_subtype, in_min_bound, in_max_bound])

/-- **C3.** Normalization is not idempotent.  Projecting a field out of
a dependent record substitutes the earlier fields' values into the
projected value without re-normalizing it (the `Proj` arm of
`normalize` returns the `lookup_record` result as found), so the first
normalization can return a value containing a beta-redex that only a
second normalization reduces.  Concretely, the term
`(record { f = fun (x : Type 0) => x, g = f 5 }).g` normalizes, under
the default environment, to the identity function grafted onto the
stuck spine `[5]` — an unreduced application — while normalizing the
term embedding of that result again beta-reduces it to the literal `5`,
which is not alpha-equal to the first result. -/
theorem normalize_not_idempotent :
    normalize default_tc_env 32 0
        (.proj
          (.record "f" (.lam (.universe 0) (.var (.bound 0)))
            (.record "g" (.app (.var (.bound 0)) (.literal (.int 5)))
              .recordEmpty))
          "g") =
      some (.ok (.neutral (.lam (.universe 0) (.neutral (.nvar (.bound 0)) []))
        [.literal (.int 5)])) ∧
    normalize default_tc_env 32 0
        (toTerm
          (.neutral (.lam (.universe 0) (.neutral (.nvar (.bound 0)) []))
            [.literal (.int 5)])) =
      some (.ok (.literal (.int 5))) ∧
    term_eq
      (.neutral (.lam (.universe 0) (.neutral (.nvar (.bound 0)) []))
        [.literal (.int 5)])
      (.literal (.int 5)) = false := by
  refine ⟨?_, ?_, ?_⟩
  · simp [normalize, lookup_record, instValue, instValueList, instValueOpt,
      liftValue, liftValueList, liftValueOpt]
  · simp [normalize, toTerm, toTermSpine, instTerm, instTermOpt,
      liftTerm, liftTermOpt]
  · exact (term_eq_eq_false _ _).mpr (by simp)

end Fathom

/-! ## Theorems about the ddl surface elaborator -/

namespace Ddl

/-- **C6.** When an item's label duplicates the label of an earlier item,
the elaborator emits a redefinition diagnostic that records the original
item's span, the new item is not added to the output module, and the
later items are elaborated under the unchanged item table, so the
original binding stays visible to them. -/
theorem item_redefinition_pins_original
    (context : ItemContext) (item : surface.Item) (rest : List surface.Item)
    (span0 : Span) (ty0 : Value) (core_items : List Item)
    (ds_all : List Diagnostic)
    (hdup : lookup_item context.items item.label = some (span0, ty0))
    (hela : elaborate_items context (item :: rest) = some (core_items, ds_all)) :
    (∃ dsr, elaborate_items context rest = some (core_items, dsr)) ∧
    Diagnostic.itemRedefinition .error context.fileId item.label item.span span0
      ∈ ds_all := by
  obtain al | st := item
  · simp only [surface.Item.label, surface.Item.span] at hdup ⊢
    rw [elaborate_items] at hela
    split at hela
    · exact absurd hela (by simp)
    · simp only [hdup] at hela
      rcases hrest : elaborate_items context rest with _ | ⟨ci, dsr⟩ <;>
        rw [hrest] at hela
      · exact absurd hela (by simp)
      · simp only [Option.some.injEq, Prod.mk.injEq] at hela
        obtain ⟨h1, h2⟩ := hela
        subst h1
        subst h2
        exact ⟨⟨dsr, rfl⟩, by simp⟩
  · simp only [surface.Item.label, surface.Item.span] at hdup ⊢
    rw [elaborate_items] at hela
    split at hela
    · exact absurd hela (by simp)
    · simp only [hdup] at hela
      rcases hrest : elaborate_items context rest with _ | ⟨ci, dsr⟩ <;>
        rw [hrest] at hela
      · exact absurd hela (by simp)
      · simp only [Option.some.injEq, Prod.mk.injEq] at hela
        obtain ⟨h1, h2⟩ := hela
        subst h1
        subst h2
        exact ⟨⟨dsr, rfl⟩, by simp⟩

/-- Witness for `item_redefinition_pins_original`: the module
`alias E = U8; alias E = U16Be` in miniature — elaborating the second
`E` under a table that already binds `E` keeps the output empty and
reports the redefinition against the first span. -/
theorem item_redefinition_pins_original_witness :
    (∃ dsr, elaborate_items ⟨0, [("E", ⟨0, 1⟩, Value.universe .format)]⟩ [] =
      some ([], dsr)) ∧
    Diagnostic.itemRedefinition .error 0 "E" ⟨2, 3⟩ ⟨0, 1⟩ ∈
      [Diagnostic.itemRedefinition .error 0 "E" ⟨2, 3⟩ ⟨0, 1⟩] :=
  item_redefinition_pins_original
    ⟨0, [("E", ⟨0, 1⟩, Value.universe .format)]⟩
    (.alias ⟨⟨2, 3⟩, "", (⟨2, 3⟩, "E"), none, .name ⟨2, 3⟩ "U16Be"⟩)
    [] ⟨0, 1⟩ (Value.universe .format) []
    [Diagnostic.itemRedefinition .error 0 "E" ⟨2, 3⟩ ⟨0, 1⟩]
    (by simp [lookup_item, surface.Item.label])
    (by simp [elaborate_items, synth_term, lookup_item,
      ItemContext.term_context, surface.Item.label])

/-- **C8 (evaluating the code).** `check_bool_branches` is
`unimplemented!("boolean eliminators")` in the source, so checking any
match whose scrutinee synthesizes to `Bool` panics (modelled by `none`)
instead of collecting `true`/`false` branches and elaborating to a
boolean elimination. -/
theorem bool_match_unimplemented
    (context : TermContext) (span : Span) (shead : surface.Term)
    (sbranches : List (surface.Pattern × surface.Term)) (expected_ty : Value)
    (head : Term) (ds0 : List Diagnostic)
    (hsynth : synth_term context shead = some ((head, bool_ty), ds0))
    (hexp : expected_ty ≠ .error) :
    check_term context (.matchE span shead sbranches) expected_ty = none := by
  cases expected_ty <;> try (exact absurd rfl hexp)
  all_goals simp [check_term, hsynth, bool_ty, check_bool_branches]

/-- Witness for `bool_match_unimplemented`: checking
`match b { x => 0 }` against `Int` with `b : Bool` in scope aborts. -/
theorem bool_match_unimplemented_witness :
    check_term ⟨0, [("b", ⟨0, 1⟩, bool_ty)]⟩
      (.matchE ⟨2, 9⟩ (.name ⟨2, 3⟩ "b")
        [(.name ⟨4, 5⟩ "x", .numberLiteral ⟨6, 7⟩ 0)])
      (Value.neutral (.item "Int") []) = none :=
  bool_match_unimplemented ⟨0, [("b", ⟨0, 1⟩, bool_ty)]⟩ ⟨2, 9⟩
    (.name ⟨2, 3⟩ "b") [(.name ⟨4, 5⟩ "x", .numberLiteral ⟨6, 7⟩ 0)]
    (Value.neutral (.item "Int") []) (Term.item ⟨2, 3⟩ "b") []
    (by simp [synth_term, lookup_item]) (by simp)

/-- **C9.** In synthesis mode an `if` expression checks its condition
against `Bool`, infers the types of both branches, and synthesizes the
common type when the two inferred types are equal; when they are not
equal it reports a type mismatch and produces the error sentinel. -/
theorem synth_if_requires_equal_types
    (context : TermContext) (span : Span)
    (shead sif_true sif_false : surface.Term)
    (head : Term) (ds1 : List Diagnostic)
    (if_true : Term) (if_true_ty : Value) (ds2 : List Diagnostic)
    (if_false : Term) (if_false_ty : Value) (ds3 : List Diagnostic)
    (hhead : check_term context shead bool_ty = some (head, ds1))
    (ht : synth_term context sif_true = some ((if_true, if_true_ty), ds2))
    (hf : synth_term context sif_false = some ((if_false, if_false_ty), ds3)) :
    (equal if_true_ty if_false_ty = true →
      synth_term context (.ifte span shead sif_true sif_false) =
        some ((.boolElim span head if_true if_false, if_true_ty),
          ds1 ++ ds2 ++ ds3)) ∧
    (equal if_true_ty if_false_ty = false →
      synth_term context (.ifte span shead sif_true sif_false) =
        some ((.error span, .error),
          ds1 ++ ds2 ++ ds3 ++
            [.typeMismatch .error context.fileId sif_false.span
              if_true_ty if_false_ty])) := by
  constructor <;> intro hEq <;> simp [synth_term, hhead, ht, hf, hEq]

/-- Witness for `synth_if_requires_equal_types`: synthesizing
`if true then true else false` yields a boolean elimination of type
`Bool`. -/
theorem synth_if_requires_equal_types_witness :
    synth_term ⟨0, []⟩
      (.ifte ⟨0, 10⟩ (.name ⟨1, 2⟩ "true") (.name ⟨3, 4⟩ "true")
        (.name ⟨5, 6⟩ "false")) =
      some ((.boolElim ⟨0, 10⟩ (Term.constant ⟨1, 2⟩ (.bool true))
          (Term.constant ⟨3, 4⟩ (.bool true))
          (Term.constant ⟨5, 6⟩ (.bool false)), bool_ty), []) :=
  (synth_if_requires_equal_types ⟨0, []⟩ ⟨0, 10⟩
    (.name ⟨1, 2⟩ "true") (.name ⟨3, 4⟩ "true") (.name ⟨5, 6⟩ "false")
    (Term.constant ⟨1, 2⟩ (.bool true)) []
    (Term.constant ⟨3, 4⟩ (.bool true)) bool_ty []
    (Term.constant ⟨5, 6⟩ (.bool false)) bool_ty []
    (by simp [check_term, synth_term, lookup_item, bool_ty, equal,
      equal.elims_beq])
    (by simp [synth_term, lookup_item])
    (by simp [synth_term, lookup_item])).1
    (by simp [equal, equal.elims_beq, bool_ty])

end Ddl



namespace Ddl

theorem loop_keeps_default :
    ∀ (bs : List (surface.Pattern × surface.Term)) (ctx : TermContext)
      (exp : Value) (acc : List (Int × Term)) (d : Term)
      (out : (List (Int × Term) × Option Term) × List Diagnostic),
      check_int_branches_loop ctx bs exp acc (some d) = some out →
      out.1.2 = some d
  | [] => by
    intro ctx exp acc d out h
    rw [check_int_branches_loop] at h
    cases h
    rfl
  | (surface.Pattern.numberLiteral sp lit, body) :: rest => by
    intro ctx exp acc d out h
    rw [check_int_branches_loop] at h
    rcases hct : check_term ctx body exp with _ | ⟨cbody, ds1⟩ <;>
      simp only [hct] at h
    · exact Option.noConfusion h
    · rcases hrec : check_int_branches_loop ctx rest exp acc (some d)
        with _ | ⟨result, ds2⟩ <;> simp only [hrec] at h
      · exact Option.noConfusion h
      · cases h
        exact loop_keeps_default rest ctx exp acc d (result, ds2) hrec
  | (surface.Pattern.name sp nm, body) :: rest => by
    intro ctx exp acc d out h
    rw [check_int_branches_loop] at h
    rcases hct : check_term ctx body exp with _ | ⟨cbody, ds1⟩ <;>
      simp only [hct] at h
    · exact Option.noConfusion h
    · rcases hrec : check_int_branches_loop ctx rest exp acc (some d)
        with _ | ⟨result, ds2⟩ <;> simp only [hrec] at h
      · exact Option.noConfusion h
      · cases h
        exact loop_keeps_default rest ctx exp acc d (result, ds2) hrec

theorem mem_insert_branch :
    ∀ (bs : List (Int × Term)) (k : Int) (v : Term) (kv : Int × Term),
      kv ∈ insert_branch bs k v → kv ∈ bs ∨ kv = (k, v)
  | [], k, v, kv => by simp [insert_branch]
  | (k', v') :: rest, k, v, kv => by
    simp only [insert_branch]
    split
    · intro hmem
      rcases List.mem_cons.mp hmem with h | h
      · exact Or.inr h
      · exact Or.inl h
    · intro hmem
      rcases List.mem_cons.mp hmem with h | h
      · exact Or.inl (by simp [h])
      · rcases mem_insert_branch rest k v kv h with h2 | h2
        · exact Or.inl (List.mem_cons_of_mem _ h2)
        · exact Or.inr h2

theorem insert_branch_keys :
    ∀ (bs : List (Int × Term)) (k : Int) (v : Term) (j : Int),
      j ∈ (insert_branch bs k v).map Prod.fst →
      j = k ∨ j ∈ bs.map Prod.fst := by
  intro bs k v j hj
  rcases List.mem_map.mp hj with ⟨kv, hkv, rfl⟩
  rcases mem_insert_branch bs k v kv hkv with h | h
  · exact Or.inr (List.mem_map_of_mem _ h)
  · exact Or.inl (by rw [h])

theorem insert_branch_pairwise :
    ∀ (bs : List (Int × Term)) (k : Int) (v : Term),
      List.Pairwise (· < ·) (bs.map Prod.fst) →
      (bs.any fun b => b.1 == k) = false →
      List.Pairwise (· < ·) ((insert_branch bs k v).map Prod.fst)
  | [], k, v => by simp [insert_branch]
  | (k', v') :: rest, k, v => by
    intro hsorted hnotin
    simp only [List.any_cons, Bool.or_eq_false_iff, beq_eq_false_iff_ne] at hnotin
    obtain ⟨hne, hrest⟩ := hnotin
    simp only [List.map_cons, List.pairwise_cons] at hsorted
    obtain ⟨hlt, htail⟩ := hsorted
    simp only [insert_branch]
    split
    · rename_i hklt
      simp only [List.map_cons, List.pairwise_cons]
      refine ⟨?_, ?_⟩
      · intro j hj
        rcases List.mem_cons.mp hj with rfl | hj
        · exact hklt
        · exact lt_trans hklt (hlt j hj)
      · exact ⟨hlt, htail⟩
    · rename_i hkge
      simp only [List.map_cons, List.pairwise_cons]
      refine ⟨?_, insert_branch_pairwise rest k v htail (by simp [List.any_eq_false] at hrest ⊢; intro a b hab; exact hrest a b hab)⟩
      intro j hj
      rcases insert_branch_keys rest k v j hj with rfl | hj
      · omega
      · exact hlt j hj

theorem loop_warns_after_default :
    ∀ (bs : List (surface.Pattern × surface.Term)) (ctx : TermContext)
      (exp : Value) (acc : List (Int × Term)) (d : Term)
      (out : (List (Int × Term) × Option Term) × List Diagnostic)
      (p : surface.Pattern) (body : surface.Term),
      (p, body) ∈ bs →
      check_int_branches_loop ctx bs exp acc (some d) = some out →
      Diagnostic.unreachablePattern ctx.fileId p.span ∈ out.2
  | [] => by simp
  | (surface.Pattern.numberLiteral sp lit, body0) :: rest => by
    intro ctx exp acc d out p body hmem h
    rw [check_int_branches_loop] at h
    rcases hct : check_term ctx body0 exp with _ | ⟨cbody, ds1⟩ <;>
      simp only [hct] at h
    · exact Option.noConfusion h
    · rcases hrec : check_int_branches_loop ctx rest exp acc (some d)
        with _ | ⟨result, ds2⟩ <;> simp only [hrec] at h
      · exact Option.noConfusion h
      · cases h
        rcases List.mem_cons.mp hmem with heq | hmem
        · cases heq
          simp [surface.Pattern.span]
        · have := loop_warns_after_default rest ctx exp acc d (result, ds2)
            p body hmem hrec
          simp only [List.mem_append]
          exact Or.inr this
  | (surface.Pattern.name sp nm, body0) :: rest => by
    intro ctx exp acc d out p body hmem h
    rw [check_int_branches_loop] at h
    rcases hct : check_term ctx body0 exp with _ | ⟨cbody, ds1⟩ <;>
      simp only [hct] at h
    · exact Option.noConfusion h
    · rcases hrec : check_int_branches_loop ctx rest exp acc (some d)
        with _ | ⟨result, ds2⟩ <;> simp only [hrec] at h
      · exact Option.noConfusion h
      · cases h
        rcases List.mem_cons.mp hmem with heq | hmem
        · cases heq
          simp [surface.Pattern.span]
        · have := loop_warns_after_default rest ctx exp acc d (result, ds2)
            p body hmem hrec
          simp only [List.mem_append]
          exact Or.inr this

theorem loop_no_default :
    ∀ (bs : List (surface.Pattern × surface.Term)) (ctx : TermContext)
      (exp : Value) (acc : List (Int × Term))
      (out : (List (Int × Term) × Option Term) × List Diagnostic),
      (∀ q ∈ bs, surface.Pattern.isNamePat q.1 = false) →
      check_int_branches_loop ctx bs exp acc none = some out →
      out.1.2 = none
  | [] => by
    intro ctx exp acc out hall h
    rw [check_int_branches_loop] at h
    cases h
    rfl
  | (surface.Pattern.numberLiteral sp lit, body) :: rest => by
    intro ctx exp acc out hall h
    rw [check_int_branches_loop] at h
    rcases hct : check_term ctx body exp with _ | ⟨cbody, ds1⟩ <;>
      simp only [hct] at h
    · exact Option.noConfusion h
    · have hall' : ∀ q ∈ rest, surface.Pattern.isNamePat q.1 = false :=
        fun q hq => hall q (List.mem_cons_of_mem _ hq)
      split at h
      · rcases hrec : check_int_branches_loop ctx rest exp acc none
          with _ | ⟨result, ds2⟩ <;> simp only [hrec] at h
        · exact Option.noConfusion h
        · cases h
          exact loop_no_default rest ctx exp acc (result, ds2) hall' hrec
      · rcases hrec : check_int_branches_loop ctx rest exp
            (insert_branch acc lit cbody) none
          with _ | ⟨result, ds2⟩ <;> simp only [hrec] at h
        · exact Option.noConfusion h
        · cases h
          exact loop_no_default rest ctx exp _ (result, ds2) hall' hrec
  | (surface.Pattern.name sp nm, body) :: rest => by
    intro ctx exp acc out hall h
    have := hall (surface.Pattern.name sp nm, body) (List.mem_cons_self _ _)
    simp [surface.Pattern.isNamePat] at this

theorem loop_first_name_default :
    ∀ (pre : List (surface.Pattern × surface.Term)) (nsp : Span) (nm : String)
      (body : surface.Term) (post : List (surface.Pattern × surface.Term))
      (ctx : TermContext) (exp : Value) (acc : List (Int × Term))
      (out : (List (Int × Term) × Option Term) × List Diagnostic)
      (cbody : Term) (dsb : List Diagnostic),
      (∀ q ∈ pre, surface.Pattern.isNamePat q.1 = false) →
      check_term ctx body exp = some (cbody, dsb) →
      check_int_branches_loop ctx
        (pre ++ (surface.Pattern.name nsp nm, body) :: post) exp acc none =
        some out →
      out.1.2 = some cbody
  | [] => by
    intro nsp nm body post ctx exp acc out cbody dsb hpre hbody h
    rw [List.nil_append, check_int_branches_loop] at h
    simp only [hbody] at h
    rcases hrec : check_int_branches_loop ctx post exp acc (some cbody)
      with _ | ⟨result, ds2⟩ <;> simp only [hrec] at h
    · exact Option.noConfusion h
    · cases h
      exact loop_keeps_default post ctx exp acc cbody (result, ds2) hrec
  | (surface.Pattern.numberLiteral sp lit, body0) :: pre => by
    intro nsp nm body post ctx exp acc out cbody dsb hpre hbody h
    rw [List.cons_append, check_int_branches_loop] at h
    rcases hct : check_term ctx body0 exp with _ | ⟨cbody0, ds1⟩ <;>
      simp only [hct] at h
    · exact Option.noConfusion h
    · have hpre' : ∀ q ∈ pre, surface.Pattern.isNamePat q.1 = false :=
        fun q hq => hpre q (List.mem_cons_of_mem _ hq)
      split at h
      · rcases hrec : check_int_branches_loop ctx
            (pre ++ (surface.Pattern.name nsp nm, body) :: post) exp acc none
          with _ | ⟨result, ds2⟩ <;> simp only [hrec] at h
        · exact Option.noConfusion h
        · cases h
          exact loop_first_name_default pre nsp nm body post ctx exp acc
            (result, ds2) cbody dsb hpre' hbody hrec
      · rcases hrec : check_int_branches_loop ctx
            (pre ++ (surface.Pattern.name nsp nm, body) :: post) exp
            (insert_branch acc lit cbody0) none
          with _ | ⟨result, ds2⟩ <;> simp only [hrec] at h
        · exact Option.noConfusion h
        · cases h
          exact loop_first_name_default pre nsp nm body post ctx exp _
            (result, ds2) cbody dsb hpre' hbody hrec
  | (surface.Pattern.name sp0 nm0, body0) :: pre => by
    intro nsp nm body post ctx exp acc out cbody dsb hpre hbody h
    have := hpre (surface.Pattern.name sp0 nm0, body0) (List.mem_cons_self _ _)
    simp [surface.Pattern.isNamePat] at this

theorem loop_warns_after_name :
    ∀ (pre : List (surface.Pattern × surface.Term)) (p : surface.Pattern)
      (body : surface.Term) (post : List (surface.Pattern × surface.Term))
      (ctx : TermContext) (exp : Value) (acc : List (Int × Term))
      (dflt : Option Term)
      (out : (List (Int × Term) × Option Term) × List Diagnostic),
      (∃ q ∈ pre, surface.Pattern.isNamePat q.1 = true) →
      check_int_branches_loop ctx (pre ++ (p, body) :: post) exp acc dflt =
        some out →
      Diagnostic.unreachablePattern ctx.fileId p.span ∈ out.2
  | [] => by
    rintro p body post ctx exp acc dflt out ⟨q, hq, _⟩ h
    simp at hq
  | (q1, body0) :: pre => by
    rintro p body post ctx exp acc dflt out ⟨q, hq, hqname⟩ h
    rcases dflt with _ | d
    case some =>
      exact loop_warns_after_default _ ctx exp acc d out p body (by simp) h
    case none =>
      cases q1 with
      | name sp0 nm0 =>
        rw [List.cons_append, check_int_branches_loop] at h
        rcases hct : check_term ctx body0 exp with _ | ⟨cbody0, ds1⟩ <;>
          simp only [hct] at h
        · exact Option.noConfusion h
        · rcases hrec : check_int_branches_loop ctx
              (pre ++ (p, body) :: post) exp acc (some cbody0)
            with _ | ⟨result, ds2⟩ <;> simp only [hrec] at h
          · exact Option.noConfusion h
          · cases h
            have := loop_warns_after_default _ ctx exp acc cbody0
              (result, ds2) p body (by simp) hrec
            simp only [List.mem_append]
            exact Or.inr this
      | numberLiteral sp0 lit =>
        rcases List.mem_cons.mp hq with rfl | hq2
        · simp [surface.Pattern.isNamePat] at hqname
        · rw [List.cons_append, check_int_branches_loop] at h
          rcases hct : check_term ctx body0 exp with _ | ⟨cbody0, ds1⟩ <;>
            simp only [hct] at h
          · exact Option.noConfusion h
          · split at h
            · rcases hrec : check_int_branches_loop ctx
                  (pre ++ (p, body) :: post) exp acc none
                with _ | ⟨result, ds2⟩ <;> simp only [hrec] at h
              · exact Option.noConfusion h
              · cases h
                have := loop_warns_after_name pre p body post ctx exp acc none
                  (result, ds2) ⟨q, hq2, hqname⟩ hrec
                simp only [List.mem_append]
                exact Or.inr this
            · rcases hrec : check_int_branches_loop ctx
                  (pre ++ (p, body) :: post) exp
                  (insert_branch acc lit cbody0) none
                with _ | ⟨result, ds2⟩ <;> simp only [hrec] at h
              · exact Option.noConfusion h
              · cases h
                have := loop_warns_after_name pre p body post ctx exp _ none
                  (result, ds2) ⟨q, hq2, hqname⟩ hrec
                simp only [List.mem_append]
                exact Or.inr this

theorem self_mem_insert_branch :
    ∀ (bs : List (Int × Term)) (k : Int) (v : Term),
      (k, v) ∈ insert_branch bs k v
  | [], k, v => by simp [insert_branch]
  | (k', v') :: rest, k, v => by
    simp only [insert_branch]
    split
    · exact List.mem_cons_self _ _
    · exact List.mem_cons_of_mem _ (self_mem_insert_branch rest k v)

theorem mem_insert_branch_of_mem :
    ∀ (bs : List (Int × Term)) (k : Int) (v : Term) (kv : Int × Term),
      kv ∈ bs → kv ∈ insert_branch bs k v
  | [], k, v, kv => by simp
  | (k', v') :: rest, k, v, kv => by
    intro hmem
    simp only [insert_branch]
    split
    · exact List.mem_cons_of_mem _ hmem
    · rcases List.mem_cons.mp hmem with rfl | hmem
      · exact List.mem_cons_self _ _
      · exact List.mem_cons_of_mem _ (mem_insert_branch_of_mem rest k v kv hmem)

theorem insert_branch_any_self (bs : List (Int × Term)) (k : Int) (v : Term) :
    ((insert_branch bs k v).any fun b => b.1 == k) = true :=
  List.any_eq_true.mpr ⟨(k, v), self_mem_insert_branch bs k v, by simp⟩

theorem insert_branch_any_mono (bs : List (Int × Term)) (k j : Int) (v : Term)
    (h : (bs.any fun b => b.1 == j) = true) :
    ((insert_branch bs k v).any fun b => b.1 == j) = true := by
  rcases List.any_eq_true.mp h with ⟨kv, hkv, hj⟩
  exact List.any_eq_true.mpr ⟨kv, mem_insert_branch_of_mem bs k v kv hkv, hj⟩

theorem loop_warns_dup_literal :
    ∀ (pre : List (surface.Pattern × surface.Term)) (sp2 : Span) (k : Int)
      (body2 : surface.Term) (post : List (surface.Pattern × surface.Term))
      (ctx : TermContext) (exp : Value) (acc : List (Int × Term))
      (dflt : Option Term)
      (out : (List (Int × Term) × Option Term) × List Diagnostic),
      ((∃ q ∈ pre, ∃ sp1 : Span,
          Prod.fst q = surface.Pattern.numberLiteral sp1 k) ∨
        (acc.any fun b => b.1 == k) = true ∨ dflt.isSome = true) →
      check_int_branches_loop ctx
        (pre ++ (surface.Pattern.numberLiteral sp2 k, body2) :: post) exp acc
        dflt = some out →
      Diagnostic.unreachablePattern ctx.fileId sp2 ∈ out.2
  | [] => by
    rintro sp2 k body2 post ctx exp acc dflt out hin h
    rcases dflt with _ | d
    · rcases hin with ⟨q, hq, _⟩ | hacc | hsome
      · simp at hq
      · rw [List.nil_append, check_int_branches_loop] at h
        rcases hct : check_term ctx body2 exp with _ | ⟨cbody, ds1⟩ <;>
          simp only [hct] at h
        · exact Option.noConfusion h
        · split at h
          · rcases hrec : check_int_branches_loop ctx post exp acc none
              with _ | ⟨result, ds2⟩ <;> simp only [hrec] at h
            · exact Option.noConfusion h
            · cases h
              simp
          · rename_i hcond
            exact absurd hacc hcond
      · simp at hsome
    · exact loop_warns_after_default _ ctx exp acc d out
        (surface.Pattern.numberLiteral sp2 k) body2 (by simp) h
  | (q1, body0) :: pre => by
    rintro sp2 k body2 post ctx exp acc dflt out hin h
    rcases dflt with _ | d
    case some =>
      exact loop_warns_after_default _ ctx exp acc d out
        (surface.Pattern.numberLiteral sp2 k) body2 (by simp) h
    case none =>
      cases q1 with
      | name sp0 nm0 =>
        rw [List.cons_append, check_int_branches_loop] at h
        rcases hct : check_term ctx body0 exp with _ | ⟨cbody0, ds1⟩ <;>
          simp only [hct] at h
        · exact Option.noConfusion h
        · rcases hrec : check_int_branches_loop ctx
              (pre ++ (surface.Pattern.numberLiteral sp2 k, body2) :: post)
              exp acc (some cbody0)
            with _ | ⟨result, ds2⟩ <;> simp only [hrec] at h
          · exact Option.noConfusion h
          · cases h
            have := loop_warns_after_default _ ctx exp acc cbody0
              (result, ds2) (surface.Pattern.numberLiteral sp2 k) body2
              (by simp) hrec
            simp only [List.mem_append]
            exact Or.inr this
      | numberLiteral sp0 j =>
        rw [List.cons_append, check_int_branches_loop] at h
        rcases hct : check_term ctx body0 exp with _ | ⟨cbody0, ds1⟩ <;>
          simp only [hct] at h
        · exact Option.noConfusion h
        · have hin2 : (∃ q ∈ pre, ∃ sp1 : Span,
              Prod.fst q = surface.Pattern.numberLiteral sp1 k) ∨
              (acc.any fun b => b.1 == k) = true ∨ j = k := by
            rcases hin with ⟨q, hq, sp1, hq1⟩ | hacc | hsome
            · rcases List.mem_cons.mp hq with rfl | hq2
              · simp only at hq1
                cases hq1
                exact Or.inr (Or.inr rfl)
              · exact Or.inl ⟨q, hq2, sp1, hq1⟩
            · exact Or.inr (Or.inl hacc)
            · simp at hsome
          split at h
          · rcases hrec : check_int_branches_loop ctx
                (pre ++ (surface.Pattern.numberLiteral sp2 k, body2) :: post)
                exp acc none
              with _ | ⟨result, ds2⟩ <;> simp only [hrec] at h
            · exact Option.noConfusion h
            · cases h
              rename_i hcond
              have hnext : (∃ q ∈ pre, ∃ sp1 : Span,
                  Prod.fst q = surface.Pattern.numberLiteral sp1 k) ∨
                  (acc.any fun b => b.1 == k) = true ∨
                  (none : Option Term).isSome = true := by
                rcases hin2 with hl | hacc | rfl
                · exact Or.inl hl
                · exact Or.inr (Or.inl hacc)
                · exact Or.inr (Or.inl hcond)
              have := loop_warns_dup_literal pre sp2 k body2 post ctx exp acc
                none (result, ds2) hnext hrec
              simp only [List.mem_append]
              exact Or.inr this
          · rcases hrec : check_int_branches_loop ctx
                (pre ++ (surface.Pattern.numberLiteral sp2 k, body2) :: post)
                exp (insert_branch acc j cbody0) none
              with _ | ⟨result, ds2⟩ <;> simp only [hrec] at h
            · exact Option.noConfusion h
            · cases h
              have hnext : (∃ q ∈ pre, ∃ sp1 : Span,
                  Prod.fst q = surface.Pattern.numberLiteral sp1 k) ∨
                  ((insert_branch acc j cbody0).any fun b => b.1 == k) = true ∨
                  (none : Option Term).isSome = true := by
                rcases hin2 with hl | hacc | heq
                · exact Or.inl hl
                · exact Or.inr (Or.inl (insert_branch_any_mono acc j k cbody0 hacc))
                · exact Or.inr (Or.inl (by
                    rw [← heq]
                    exact insert_branch_any_self acc j cbody0))
              have := loop_warns_dup_literal pre sp2 k body2 post ctx exp _
                none (result, ds2) hnext hrec
              simp only [List.mem_append]
              exact Or.inr this

theorem append_surround_mono {α : Type} {dsb m : List α} (pre : List α) :
    (∃ l r, m = l ++ dsb ++ r) → ∃ l r, pre ++ m = l ++ dsb ++ r := by
  rintro ⟨l, r, rfl⟩
  exact ⟨pre ++ l, r, by simp⟩

theorem loop_sorted_keys :
    ∀ (bs : List (surface.Pattern × surface.Term)) (ctx : TermContext)
      (exp : Value) (acc : List (Int × Term)) (dflt : Option Term)
      (out : (List (Int × Term) × Option Term) × List Diagnostic),
      List.Pairwise (· < ·) (acc.map Prod.fst) →
      check_int_branches_loop ctx bs exp acc dflt = some out →
      List.Pairwise (· < ·) (out.1.1.map Prod.fst)
  | [] => by
    intro ctx exp acc dflt out hsorted h
    rw [check_int_branches_loop] at h
    cases h
    exact hsorted
  | (surface.Pattern.numberLiteral sp lit, body) :: rest => by
    intro ctx exp acc dflt out hsorted h
    rw [check_int_branches_loop] at h
    rcases dflt with _ | d <;>
      rcases hct : check_term ctx body exp with _ | ⟨cbody, ds1⟩ <;>
      simp only [hct] at h
    · exact Option.noConfusion h
    · split at h
      · rcases hrec : check_int_branches_loop ctx rest exp acc none
          with _ | ⟨result, ds2⟩ <;> simp only [hrec] at h
        · exact Option.noConfusion h
        · cases h
          exact loop_sorted_keys rest ctx exp acc none (result, ds2)
            hsorted hrec
      · rename_i hcond
        rcases hrec : check_int_branches_loop ctx rest exp
            (insert_branch acc lit cbody) none
          with _ | ⟨result, ds2⟩ <;> simp only [hrec] at h
        · exact Option.noConfusion h
        · cases h
          exact loop_sorted_keys rest ctx exp _ none (result, ds2)
            (insert_branch_pairwise acc lit cbody hsorted
              (Bool.not_eq_true _ ▸ hcond)) hrec
    · exact Option.noConfusion h
    · rcases hrec : check_int_branches_loop ctx rest exp acc (some d)
        with _ | ⟨result, ds2⟩ <;> simp only [hrec] at h
      · exact Option.noConfusion h
      · cases h
        exact loop_sorted_keys rest ctx exp acc (some d) (result, ds2)
          hsorted hrec
  | (surface.Pattern.name sp nm, body) :: rest => by
    intro ctx exp acc dflt out hsorted h
    rw [check_int_branches_loop] at h
    rcases dflt with _ | d <;>
      rcases hct : check_term ctx body exp with _ | ⟨cbody, ds1⟩ <;>
      simp only [hct] at h
    · exact Option.noConfusion h
    · rcases hrec : check_int_branches_loop ctx rest exp acc (some cbody)
        with _ | ⟨result, ds2⟩ <;> simp only [hrec] at h
      · exact Option.noConfusion h
      · cases h
        exact loop_sorted_keys rest ctx exp acc _ (result, ds2) hsorted hrec
    · exact Option.noConfusion h
    · rcases hrec : check_int_branches_loop ctx rest exp acc (some d)
        with _ | ⟨result, ds2⟩ <;> simp only [hrec] at h
      · exact Option.noConfusion h
      · cases h
        exact loop_sorted_keys rest ctx exp acc _ (result, ds2) hsorted hrec

theorem loop_branches_from_literals :
    ∀ (bs : List (surface.Pattern × surface.Term)) (ctx : TermContext)
      (exp : Value) (acc : List (Int × Term)) (dflt : Option Term)
      (out : (List (Int × Term) × Option Term) × List Diagnostic),
      check_int_branches_loop ctx bs exp acc dflt = some out →
      ∀ kv ∈ out.1.1, kv ∈ acc ∨
        ∃ sp body dsb,
          (surface.Pattern.numberLiteral sp kv.1, body) ∈ bs ∧
          check_term ctx body exp = some (kv.2, dsb)
  | [] => by
    intro ctx exp acc dflt out h kv hkv
    rw [check_int_branches_loop] at h
    cases h
    exact Or.inl hkv
  | (surface.Pattern.numberLiteral sp lit, body0) :: rest => by
    intro ctx exp acc dflt out h kv hkv
    have lift :
        (kv ∈ acc ∨ ∃ sp1 body dsb,
          (surface.Pattern.numberLiteral sp1 kv.1, body) ∈ rest ∧
          check_term ctx body exp = some (kv.2, dsb)) →
        kv ∈ acc ∨ ∃ sp1 body dsb,
          (surface.Pattern.numberLiteral sp1 kv.1, body) ∈
            (surface.Pattern.numberLiteral sp lit, body0) :: rest ∧
          check_term ctx body exp = some (kv.2, dsb) := by
      rintro (hacc | ⟨sp1, body1, dsb1, hmem, hchk⟩)
      · exact Or.inl hacc
      · exact Or.inr ⟨sp1, body1, dsb1, List.mem_cons_of_mem _ hmem, hchk⟩
    rw [check_int_branches_loop] at h
    rcases dflt with _ | d <;>
      rcases hct : check_term ctx body0 exp with _ | ⟨cbody, ds1⟩ <;>
      simp only [hct] at h
    · exact Option.noConfusion h
    · split at h
      · rcases hrec : check_int_branches_loop ctx rest exp acc none
          with _ | ⟨result, ds2⟩ <;> simp only [hrec] at h
        · exact Option.noConfusion h
        · cases h
          exact lift (loop_branches_from_literals rest ctx exp acc none
            (result, ds2) hrec kv hkv)
      · rcases hrec : check_int_branches_loop ctx rest exp
            (insert_branch acc lit cbody) none
          with _ | ⟨result, ds2⟩ <;> simp only [hrec] at h
        · exact Option.noConfusion h
        · cases h
          rcases loop_branches_from_literals rest ctx exp _ none
              (result, ds2) hrec kv hkv with hacc | hrest
          · rcases mem_insert_branch acc lit cbody kv hacc with hacc | rfl
            · exact Or.inl hacc
            · exact Or.inr ⟨sp, body0, ds1, List.mem_cons_self _ _, hct⟩
          · exact lift (Or.inr hrest)
    · exact Option.noConfusion h
    · rcases hrec : check_int_branches_loop ctx rest exp acc (some d)
        with _ | ⟨result, ds2⟩ <;> simp only [hrec] at h
      · exact Option.noConfusion h
      · cases h
        exact lift (loop_branches_from_literals rest ctx exp acc _
          (result, ds2) hrec kv hkv)
  | (surface.Pattern.name sp nm, body0) :: rest => by
    intro ctx exp acc dflt out h kv hkv
    have lift :
        (kv ∈ acc ∨ ∃ sp1 body dsb,
          (surface.Pattern.numberLiteral sp1 kv.1, body) ∈ rest ∧
          check_term ctx body exp = some (kv.2, dsb)) →
        kv ∈ acc ∨ ∃ sp1 body dsb,
          (surface.Pattern.numberLiteral sp1 kv.1, body) ∈
            (surface.Pattern.name sp nm, body0) :: rest ∧
          check_term ctx body exp = some (kv.2, dsb) := by
      rintro (hacc | ⟨sp1, body1, dsb1, hmem, hchk⟩)
      · exact Or.inl hacc
      · exact Or.inr ⟨sp1, body1, dsb1, List.mem_cons_of_mem _ hmem, hchk⟩
    rw [check_int_branches_loop] at h
    rcases dflt with _ | d <;>
      rcases hct : check_term ctx body0 exp with _ | ⟨cbody, ds1⟩ <;>
      simp only [hct] at h
    · exact Option.noConfusion h
    · rcases hrec : check_int_branches_loop ctx rest exp acc (some cbody)
        with _ | ⟨result, ds2⟩ <;> simp only [hrec] at h
      · exact Option.noConfusion h
      · cases h
        exact lift (loop_branches_from_literals rest ctx exp acc _
          (result, ds2) hrec kv hkv)
    · exact Option.noConfusion h
    · rcases hrec : check_int_branches_loop ctx rest exp acc (some d)
        with _ | ⟨result, ds2⟩ <;> simp only [hrec] at h
      · exact Option.noConfusion h
      · cases h
        exact lift (loop_branches_from_literals rest ctx exp acc _
          (result, ds2) hrec kv hkv)

theorem loop_checks_all_bodies :
    ∀ (pre : List (surface.Pattern × surface.Term)) (p : surface.Pattern)
      (body : surface.Term) (post : List (surface.Pattern × surface.Term))
      (ctx : TermContext) (exp : Value) (acc : List (Int × Term))
      (dflt : Option Term)
      (out : (List (Int × Term) × Option Term) × List Diagnostic),
      check_int_branches_loop ctx (pre ++ (p, body) :: post) exp acc dflt =
        some out →
      ∃ cbody dsb, check_term ctx body exp = some (cbody, dsb) ∧
        ∃ l r, out.2 = l ++ dsb ++ r
  | [] => by
    intro p body post ctx exp acc dflt out h
    rw [List.nil_append] at h
    cases p with
    | numberLiteral sp lit =>
      rw [check_int_branches_loop] at h
      rcases dflt with _ | d <;>
        rcases hct : check_term ctx body exp with _ | ⟨cbody, ds1⟩ <;>
        simp only [hct] at h
      · exact Option.noConfusion h
      · split at h
        · rcases hrec : check_int_branches_loop ctx post exp acc none
            with _ | ⟨result, ds2⟩ <;> simp only [hrec] at h
          · exact Option.noConfusion h
          · cases h
            exact ⟨cbody, ds1, rfl, [],
              Diagnostic.unreachablePattern ctx.fileId sp :: ds2, by simp⟩
        · rcases hrec : check_int_branches_loop ctx post exp
              (insert_branch acc lit cbody) none
            with _ | ⟨result, ds2⟩ <;> simp only [hrec] at h
          · exact Option.noConfusion h
          · cases h
            exact ⟨cbody, ds1, rfl, [], ds2, by simp⟩
      · exact Option.noConfusion h
      · rcases hrec : check_int_branches_loop ctx post exp acc (some d)
          with _ | ⟨result, ds2⟩ <;> simp only [hrec] at h
        · exact Option.noConfusion h
        · cases h
          exact ⟨cbody, ds1, rfl, [],
            Diagnostic.unreachablePattern ctx.fileId sp :: ds2, by simp⟩
    | name sp nm =>
      rw [check_int_branches_loop] at h
      rcases dflt with _ | d <;>
        rcases hct : check_term ctx body exp with _ | ⟨cbody, ds1⟩ <;>
        simp only [hct] at h
      · exact Option.noConfusion h
      · rcases hrec : check_int_branches_loop ctx post exp acc (some cbody)
          with _ | ⟨result, ds2⟩ <;> simp only [hrec] at h
        · exact Option.noConfusion h
        · cases h
          exact ⟨cbody, ds1, rfl, [], ds2, by simp⟩
      · exact Option.noConfusion h
      · rcases hrec : check_int_branches_loop ctx post exp acc (some d)
          with _ | ⟨result, ds2⟩ <;> simp only [hrec] at h
        · exact Option.noConfusion h
        · cases h
          exact ⟨cbody, ds1, rfl, [],
            Diagnostic.unreachablePattern ctx.fileId sp :: ds2, by simp⟩
  | (surface.Pattern.numberLiteral sp lit, body0) :: pre => by
    intro p body post ctx exp acc dflt out h
    rw [List.cons_append, check_int_branches_loop] at h
    rcases dflt with _ | d <;>
      rcases hct : check_term ctx body0 exp with _ | ⟨cbody0, ds1⟩ <;>
      simp only [hct] at h
    · exact Option.noConfusion h
    · split at h
      · rcases hrec : check_int_branches_loop ctx
            (pre ++ (p, body) :: post) exp acc none
          with _ | ⟨result, ds2⟩ <;> simp only [hrec] at h
        · exact Option.noConfusion h
        · cases h
          obtain ⟨cbody, dsb, hchk, l, r, rfl⟩ :=
            loop_checks_all_bodies pre p body post ctx exp acc none
              (result, ds2) hrec
          exact ⟨cbody, dsb, hchk,
            ds1 ++ Diagnostic.unreachablePattern ctx.fileId sp :: l, r, by simp⟩
      · rcases hrec : check_int_branches_loop ctx
            (pre ++ (p, body) :: post) exp
            (insert_branch acc lit cbody0) none
          with _ | ⟨result, ds2⟩ <;> simp only [hrec] at h
        · exact Option.noConfusion h
        · cases h
          obtain ⟨cbody, dsb, hchk, l, r, rfl⟩ :=
            loop_checks_all_bodies pre p body post ctx exp _ none
              (result, ds2) hrec
          exact ⟨cbody, dsb, hchk, ds1 ++ l, r, by simp⟩
    · exact Option.noConfusion h
    · rcases hrec : check_int_branches_loop ctx
          (pre ++ (p, body) :: post) exp acc (some d)
        with _ | ⟨result, ds2⟩ <;> simp only [hrec] at h
      · exact Option.noConfusion h
      · cases h
        obtain ⟨cbody, dsb, hchk, l, r, rfl⟩ :=
          loop_checks_all_bodies pre p body post ctx exp acc _
            (result, ds2) hrec
        exact ⟨cbody, dsb, hchk,
          ds1 ++ Diagnostic.unreachablePattern ctx.fileId sp :: l, r, by simp⟩
  | (surface.Pattern.name sp nm, body0) :: pre => by
    intro p body post ctx exp acc dflt out h
    rw [List.cons_append, check_int_branches_loop] at h
    rcases dflt with _ | d <;>
      rcases hct : check_term ctx body0 exp with _ | ⟨cbody0, ds1⟩ <;>
      simp only [hct] at h
    · exact Option.noConfusion h
    · rcases hrec : check_int_branches_loop ctx
          (pre ++ (p, body) :: post) exp acc (some cbody0)
        with _ | ⟨result, ds2⟩ <;> simp only [hrec] at h
      · exact Option.noConfusion h
      · cases h
        obtain ⟨cbody, dsb, hchk, l, r, rfl⟩ :=
          loop_checks_all_bodies pre p body post ctx exp acc _
            (result, ds2) hrec
        exact ⟨cbody, dsb, hchk, ds1 ++ l, r, by simp⟩
    · exact Option.noConfusion h
    · rcases hrec : check_int_branches_loop ctx
          (pre ++ (p, body) :: post) exp acc (some d)
        with _ | ⟨result, ds2⟩ <;> simp only [hrec] at h
      · exact Option.noConfusion h
      · cases h
        obtain ⟨cbody, dsb, hchk, l, r, rfl⟩ :=
          loop_checks_all_bodies pre p body post ctx exp acc _
            (result, ds2) hrec
        exact ⟨cbody, dsb, hchk,
          ds1 ++ Diagnostic.unreachablePattern ctx.fileId sp :: l, r, by simp⟩

theorem check_int_branches_parts
    (ctx : TermContext) (span : Span)
    (bs : List (surface.Pattern × surface.Term)) (exp : Value)
    (branches : List (Int × Term)) (default : Term) (ds : List Diagnostic)
    (h : check_int_branches ctx span bs exp = some ((branches, default), ds)) :
    ∃ dflt0 ds0,
      check_int_branches_loop ctx bs exp [] none =
        some ((branches, dflt0), ds0) ∧
      ((∃ d, dflt0 = some d ∧ default = d ∧ ds = ds0) ∨
        (dflt0 = none ∧ default = Term.error Span.initial ∧
          ds = ds0 ++ [Diagnostic.noDefaultPattern ctx.fileId span])) := by
  rw [check_int_branches] at h
  rcases hloop : check_int_branches_loop ctx bs exp [] none
    with _ | ⟨⟨bs0, dflt0⟩, ds0⟩ <;> simp only [hloop] at h
  · exact Option.noConfusion h
  · rcases dflt0 with _ | d
    · simp only [] at h
      cases h
      exact ⟨none, ds0, rfl, Or.inr ⟨rfl, rfl, rfl⟩⟩
    · simp only [Option.some.injEq, Prod.mk.injEq] at h
      obtain ⟨⟨hb, hd⟩, hds⟩ := h
      rw [hb]
      exact ⟨some d, ds0, rfl, Or.inl ⟨d, rfl, hd.symm, hds.symm⟩⟩

/-- **C7.** Checking a match whose scrutinee has type `Int`:
(1) the expression elaborates to an integer elimination built from the
collected branch map and default body;
(2) the branch map is ordered (its keys are strictly increasing) and
every entry of it is the checked body of a literal pattern of the match;
(3) a literal pattern whose value duplicates an earlier literal
pattern's value produces an unreachable-pattern warning;
(4) the default body is the checked body of the first name pattern;
(5) every name pattern after an earlier name pattern produces an
unreachable-pattern warning;
(6) when no name pattern is present, a missing-default-pattern error is
reported and the default becomes the error sentinel. -/
theorem int_match_elaboration :
    (∀ (ctx : TermContext) (span : Span) (shead : surface.Term)
       (sbranches : List (surface.Pattern × surface.Term))
       (expected_ty : Value) (head : Term) (ds0 : List Diagnostic)
       (branches : List (Int × Term)) (default : Term)
       (ds1 : List Diagnostic),
       expected_ty ≠ .error →
       synth_term ctx shead = some ((head, .neutral (.item "Int") []), ds0) →
       check_int_branches ctx shead.span sbranches expected_ty =
         some ((branches, default), ds1) →
       check_term ctx (.matchE span shead sbranches) expected_ty =
         some (.intElim span head branches default, ds0 ++ ds1)) ∧
    (∀ (ctx : TermContext) (span : Span)
       (sbranches : List (surface.Pattern × surface.Term)) (exp : Value)
       (branches : List (Int × Term)) (default : Term)
       (ds : List Diagnostic),
       check_int_branches ctx span sbranches exp =
         some ((branches, default), ds) →
       List.Pairwise (· < ·) (branches.map Prod.fst) ∧
       ∀ kv ∈ branches, ∃ sp body dsb,
         (surface.Pattern.numberLiteral sp kv.1, body) ∈ sbranches ∧
         check_term ctx body exp = some (kv.2, dsb)) ∧
    (∀ (ctx : TermContext) (span : Span)
       (pre : List (surface.Pattern × surface.Term)) (sp1 : Span) (k : Int)
       (body1 : surface.Term) (mid : List (surface.Pattern × surface.Term))
       (sp2 : Span) (body2 : surface.Term)
       (post : List (surface.Pattern × surface.Term)) (exp : Value)
       (branches : List (Int × Term)) (default : Term)
       (ds : List Diagnostic),
       check_int_branches ctx span
         (pre ++ (surface.Pattern.numberLiteral sp1 k, body1) ::
           (mid ++ (surface.Pattern.numberLiteral sp2 k, body2) :: post))
         exp = some ((branches, default), ds) →
       Diagnostic.unreachablePattern ctx.fileId sp2 ∈ ds) ∧
    (∀ (ctx : TermContext) (span : Span)
       (pre : List (surface.Pattern × surface.Term)) (nsp : Span)
       (nm : String) (body : surface.Term)
       (post : List (surface.Pattern × surface.Term)) (exp : Value)
       (branches : List (Int × Term)) (default : Term)
       (ds : List Diagnostic) (cbody : Term) (dsb : List Diagnostic),
       (∀ q ∈ pre, surface.Pattern.isNamePat q.1 = false) →
       check_term ctx body exp = some (cbody, dsb) →
       check_int_branches ctx span
         (pre ++ (surface.Pattern.name nsp nm, body) :: post) exp =
         some ((branches, default), ds) →
       default = cbody) ∧
    (∀ (ctx : TermContext) (span : Span)
       (pre : List (surface.Pattern × surface.Term)) (nsp2 : Span)
       (nm2 : String) (body2 : surface.Term)
       (post : List (surface.Pattern × surface.Term)) (exp : Value)
       (branches : List (Int × Term)) (default : Term)
       (ds : List Diagnostic),
       (∃ q ∈ pre, surface.Pattern.isNamePat q.1 = true) →
       check_int_branches ctx span
         (pre ++ (surface.Pattern.name nsp2 nm2, body2) :: post) exp =
         some ((branches, default), ds) →
       Diagnostic.unreachablePattern ctx.fileId nsp2 ∈ ds) ∧
    (∀ (ctx : TermContext) (span : Span)
       (sbranches : List (surface.Pattern × surface.Term)) (exp : Value)
       (branches : List (Int × Term)) (default : Term)
       (ds : List Diagnostic),
       (∀ q ∈ sbranches, surface.Pattern.isNamePat q.1 = false) →
       check_int_branches ctx span sbranches exp =
         some ((branches, default), ds) →
       default = Term.error Span.initial ∧
       Diagnostic.noDefaultPattern ctx.fileId span ∈ ds) := by
  refine ⟨?_, ?_, ?_, ?_, ?_, ?_⟩
  · intro ctx span shead sbranches expected_ty head ds0 branches default ds1
      hexp hsynth hbr
    cases expected_ty <;> try (exact absurd rfl hexp)
    all_goals simp [check_term, hsynth, hbr]
  · intro ctx span sbranches exp branches default ds h
    obtain ⟨dflt0, ds0, hloop, _⟩ :=
      check_int_branches_parts ctx span sbranches exp branches default ds h
    constructor
    · exact loop_sorted_keys sbranches ctx exp [] none
        ((branches, dflt0), ds0) (by simp) hloop
    · intro kv hkv
      rcases loop_branches_from_literals sbranches ctx exp [] none
          ((branches, dflt0), ds0) hloop kv hkv with
        habs | ⟨sp, body, dsb, hmem, hchk⟩
      · simp at habs
      · exact ⟨sp, body, dsb, hmem, hchk⟩
  · intro ctx span pre sp1 k body1 mid sp2 body2 post exp branches default ds h
    obtain ⟨dflt0, ds0, hloop, hcase⟩ :=
      check_int_branches_parts ctx span _ exp branches default ds h
    have hsh :
        pre ++ (surface.Pattern.numberLiteral sp1 k, body1) ::
            (mid ++ (surface.Pattern.numberLiteral sp2 k, body2) :: post) =
          (pre ++ (surface.Pattern.numberLiteral sp1 k, body1) :: mid) ++
            (surface.Pattern.numberLiteral sp2 k, body2) :: post := by
      simp
    rw [hsh] at hloop
    have hwarn : Diagnostic.unreachablePattern ctx.fileId sp2 ∈ ds0 :=
      loop_warns_dup_literal
        (pre ++ (surface.Pattern.numberLiteral sp1 k, body1) :: mid) sp2 k
        body2 post ctx exp [] none ((branches, dflt0), ds0)
        (Or.inl ⟨(surface.Pattern.numberLiteral sp1 k, body1),
          by simp, sp1, rfl⟩)
        hloop
    rcases hcase with ⟨d, _, _, rfl⟩ | ⟨_, _, rfl⟩
    · exact hwarn
    · exact List.mem_append_left _ hwarn
  · intro ctx span pre nsp nm body post exp branches default ds cbody dsb
      hpre hbody h
    obtain ⟨dflt0, ds0, hloop, hcase⟩ :=
      check_int_branches_parts ctx span _ exp branches default ds h
    have hd : dflt0 = some cbody :=
      loop_first_name_default pre nsp nm body post ctx exp []
        ((branches, dflt0), ds0) cbody dsb hpre hbody hloop
    rcases hcase with ⟨d, hdf, hdef, _⟩ | ⟨hnone, _, _⟩
    · rw [hdf] at hd
      injection hd with hd
      exact hdef.trans hd
    · rw [hnone] at hd
      exact Option.noConfusion hd
  · intro ctx span pre nsp2 nm2 body2 post exp branches default ds hex h
    obtain ⟨dflt0, ds0, hloop, hcase⟩ :=
      check_int_branches_parts ctx span _ exp branches default ds h
    have hwarn : Diagnostic.unreachablePattern ctx.fileId nsp2 ∈ ds0 :=
      loop_warns_after_name pre (surface.Pattern.name nsp2 nm2) body2 post
        ctx exp [] none ((branches, dflt0), ds0) hex hloop
    rcases hcase with ⟨d, _, _, rfl⟩ | ⟨_, _, rfl⟩
    · exact hwarn
    · exact List.mem_append_left _ hwarn
  · intro ctx span sbranches exp branches default ds hall h
    obtain ⟨dflt0, ds0, hloop, hcase⟩ :=
      check_int_branches_parts ctx span sbranches exp branches default ds h
    have hnone : dflt0 = none :=
      loop_no_default sbranches ctx exp [] ((branches, dflt0), ds0) hall hloop
    rcases hcase with ⟨d, hdf, _, _⟩ | ⟨_, hdef, rfl⟩
    · rw [hnone] at hdf
      exact Option.noConfusion hdf
    · exact ⟨hdef, by simp⟩

/-- Witness for `int_match_elaboration`: checking
`match x { 0 => 1, y => 2 }` with `x : Int` in scope against `Int`
elaborates to an integer elimination with branch map `[(0, 1)]` and
default `2`. -/
theorem int_match_elaboration_witness :
    check_term ⟨0, [("x", ⟨0, 1⟩, Value.neutral (.item "Int") [])]⟩
      (.matchE ⟨2, 11⟩ (.name ⟨2, 3⟩ "x")
        [(.numberLiteral ⟨4, 5⟩ 0, .numberLiteral ⟨6, 7⟩ 1),
         (.name ⟨8, 9⟩ "y", .numberLiteral ⟨10, 11⟩ 2)])
      (Value.neutral (.item "Int") []) =
      some (.intElim ⟨2, 11⟩ (Term.item ⟨2, 3⟩ "x")
        [(0, Term.constant ⟨6, 7⟩ (.int 1))]
        (Term.constant ⟨10, 11⟩ (.int 2)), []) :=
  int_match_elaboration.1 ⟨0, [("x", ⟨0, 1⟩, Value.neutral (.item "Int") [])]⟩
    ⟨2, 11⟩ (.name ⟨2, 3⟩ "x")
    [(.numberLiteral ⟨4, 5⟩ 0, .numberLiteral ⟨6, 7⟩ 1),
     (.name ⟨8, 9⟩ "y", .numberLiteral ⟨10, 11⟩ 2)]
    (Value.neutral (.item "Int") []) (Term.item ⟨2, 3⟩ "x") []
    [(0, Term.constant ⟨6, 7⟩ (.int 1))] (Term.constant ⟨10, 11⟩ (.int 2)) []
    (by simp) (by simp [synth_term, lookup_item])
    (by simp [check_int_branches, check_int_branches_loop, check_term,
      surface.Term.span, insert_branch])

/-- **C10.** In integer match elaboration every branch body is
type-checked against the expected type, even when the branch is
unreachable: the diagnostics of the body's check appear contiguously in
the emitted diagnostics (so a type mismatch inside the body is still
reported), and when the branch is unreachable — it follows an earlier
name pattern, or it is a literal pattern whose value already occurred as
an earlier literal pattern — the unreachable-pattern warning is emitted
as well. -/
theorem unreachable_bodies_still_checked :
    ∀ (ctx : TermContext) (span : Span)
      (pre : List (surface.Pattern × surface.Term)) (p : surface.Pattern)
      (body : surface.Term) (post : List (surface.Pattern × surface.Term))
      (exp : Value) (branches : List (Int × Term)) (default : Term)
      (ds : List Diagnostic),
      check_int_branches ctx span (pre ++ (p, body) :: post) exp =
        some ((branches, default), ds) →
      (∃ cbody dsb, check_term ctx body exp = some (cbody, dsb) ∧
        ∃ l r, ds = l ++ dsb ++ r) ∧
      (((∃ q ∈ pre, surface.Pattern.isNamePat q.1 = true) ∨
        (∃ sp2 k, p = surface.Pattern.numberLiteral sp2 k ∧
          ∃ q ∈ pre, ∃ sp1, Prod.fst q =
            surface.Pattern.numberLiteral sp1 k)) →
        Diagnostic.unreachablePattern ctx.fileId p.span ∈ ds) := by
  intro ctx span pre p body post exp branches default ds h
  obtain ⟨dflt0, ds0, hloop, hcase⟩ :=
    check_int_branches_parts ctx span _ exp branches default ds h
  constructor
  · obtain ⟨cbody, dsb, hchk, l, r, hsur⟩ :=
      loop_checks_all_bodies pre p body post ctx exp [] none
        ((branches, dflt0), ds0) hloop
    have hsur2 : ds0 = l ++ dsb ++ r := hsur
    refine ⟨cbody, dsb, hchk, ?_⟩
    rcases hcase with ⟨d, _, _, rfl⟩ | ⟨_, _, rfl⟩
    · exact ⟨l, r, hsur2⟩
    · exact ⟨l, r ++ [Diagnostic.noDefaultPattern ctx.fileId span],
        by rw [hsur2]; simp⟩
  · rintro (hname | ⟨sp2, k, rfl, hdup⟩)
    · have hwarn : Diagnostic.unreachablePattern ctx.fileId p.span ∈ ds0 :=
        loop_warns_after_name pre p body post ctx exp [] none
          ((branches, dflt0), ds0) hname hloop
      rcases hcase with ⟨d, _, _, rfl⟩ | ⟨_, _, rfl⟩
      · exact hwarn
      · exact List.mem_append_left _ hwarn
    · have hwarn : Diagnostic.unreachablePattern ctx.fileId sp2 ∈ ds0 :=
        loop_warns_dup_literal pre sp2 k body post ctx exp [] none
          ((branches, dflt0), ds0) (Or.inl hdup) hloop
      rcases hcase with ⟨d, _, _, rfl⟩ | ⟨_, _, rfl⟩
      · exact hwarn
      · exact List.mem_append_left _ hwarn

/-- Witness for `unreachable_bodies_still_checked`: in
`match _ { 0 => 1, 0 => true, z => 2 }` against `Int` the second branch
is unreachable (duplicate literal `0`) yet its body is still checked,
so the emitted diagnostics contain both the type mismatch from `true`
against `Int` and the unreachable-pattern warning. -/
theorem unreachable_bodies_still_checked_witness :
    (∃ cbody dsb, check_term ⟨0, []⟩ (.name ⟨6, 7⟩ "true")
        (Value.neutral (.item "Int") []) = some (cbody, dsb) ∧
      ∃ l r, ([Diagnostic.typeMismatch .error 0 ⟨6, 7⟩
            (Value.neutral (.item "Int") []) bool_ty,
          Diagnostic.unreachablePattern 0 ⟨4, 5⟩] : List Diagnostic) =
        l ++ dsb ++ r) ∧
    Diagnostic.unreachablePattern 0 ⟨4, 5⟩ ∈
      ([Diagnostic.typeMismatch .error 0 ⟨6, 7⟩
          (Value.neutral (.item "Int") []) bool_ty,
        Diagnostic.unreachablePattern 0 ⟨4, 5⟩] : List Diagnostic) := by
  have h := unreachable_bodies_still_checked ⟨0, []⟩ ⟨0, 11⟩
    [(.numberLiteral ⟨0, 1⟩ 0, .numberLiteral ⟨2, 3⟩ 1)]
    (.numberLiteral ⟨4, 5⟩ 0) (.name ⟨6, 7⟩ "true")
    [(.name ⟨8, 9⟩ "z", .numberLiteral ⟨10, 11⟩ 2)]
    (Value.neutral (.item "Int") [])
    [(0, Term.constant ⟨2, 3⟩ (.int 1))] (Term.constant ⟨10, 11⟩ (.int 2))
    [Diagnostic.typeMismatch .error 0 ⟨6, 7⟩
        (Value.neutral (.item "Int") []) bool_ty,
      Diagnostic.unreachablePattern 0 ⟨4, 5⟩]
    (by simp [check_int_branches, check_int_branches_loop, check_term,
      synth_term, lookup_item, insert_branch, equal, bool_ty,
      surface.Term.span])
  exact ⟨h.1, h.2 (Or.inr ⟨⟨4, 5⟩, 0, rfl,
    ⟨(surface.Pattern.numberLiteral ⟨0, 1⟩ 0, surface.Term.numberLiteral ⟨2, 3⟩ 1),
      by simp, ⟨0, 1⟩, rfl⟩⟩)⟩

end Ddl
